import Mathlib

/-!
Verification development for the UEXcorp trading wingman
(`_internal/wingmen/uex_corp_wingman.py`).

The Python module is shallowly embedded: dictionaries become association
lists (insertion ordered, unique keys), Python numbers become `ℚ`/`ℤ`,
`None`-able values become `Option`, and code paths that can raise become
`Except PyErr`.  The OpenAI call made by `_find_closest_match` is an
external effect and is passed in as an arbitrary function (the "oracle").
-/

attribute [local semireducible] Rat.mul Rat.add Rat.sub Rat.inv Rat.ofScientific

/-- Python `round` with a single argument: round half to even, on exact
rationals.  (The Python source applies `round` to numbers obtained from
catalog prices; the embedding works with exact rational arithmetic.) -/
def pyRound (q : ℚ) : ℤ :=
  let f : ℤ := ⌊q⌋
  let r : ℚ := q - f
  if r < 1/2 then f
  else if 1/2 < r then f + 1
  else if f % 2 = 0 then f else f + 1

/-- Python `int(...)` truncation toward zero on a rational. -/
def pyTrunc (q : ℚ) : ℤ :=
  if 0 ≤ q then ⌊q⌋ else -⌊-q⌋

/-- Python `str.lower()` (over the code points; kernel-reducible, unlike
`String.toLower`). -/
def pyLower (s : String) : String :=
  String.mk (s.data.map Char.toLower)

/-- Lookup in a Python dict modelled as an insertion-ordered association
list (first binding wins, as keys are kept unique). -/
def alookup {α : Type} : List (String × α) → String → Option α
  | [], _ => none
  | (k, v) :: rest, key => if k = key then some v else alookup rest key

/-- Python `d[k] = v`: overwrite in place if the key exists, else append. -/
def aset {α : Type} : List (String × α) → String → α → List (String × α)
  | [], k, v => [(k, v)]
  | (k0, v0) :: rest, k, v =>
      if k0 = k then (k0, v) :: rest else (k0, v0) :: aset rest k v

/-- Python `d.pop(k, None)`: drop the binding of `k` if present. -/
def aremove {α : Type} : List (String × α) → String → List (String × α)
  | [], _ => []
  | (k0, v0) :: rest, k =>
      if k0 = k then rest else (k0, v0) :: aremove rest k

theorem alookup_aset_self {α : Type} (l : List (String × α)) (k : String) (v : α) :
    alookup (aset l k v) k = some v := by
  induction l with
  | nil => simp [aset, alookup]
  | cons hd tl ih =>
      obtain ⟨k0, v0⟩ := hd
      by_cases h : k0 = k
      · simp [aset, alookup, h]
      · simp [aset, alookup, h, ih]

theorem alookup_aset_other {α : Type} (l : List (String × α)) (k k2 : String) (v : α)
    (h : k2 ≠ k) : alookup (aset l k v) k2 = alookup l k2 := by
  have hne : ¬k = k2 := fun hk => h hk.symm
  induction l with
  | nil => simp [aset, alookup, hne]
  | cons hd tl ih =>
      obtain ⟨k0, v0⟩ := hd
      by_cases h0 : k0 = k
      · subst h0
        simp [aset, alookup, hne]
      · simp [aset, alookup, h0, ih]

theorem alookup_eq_none_of_not_mem {α : Type} (l : List (String × α)) (k : String)
    (h : k ∉ l.map Prod.fst) : alookup l k = none := by
  induction l with
  | nil => simp [alookup]
  | cons hd tl ih =>
      obtain ⟨k0, v0⟩ := hd
      simp only [List.map_cons, List.mem_cons, not_or] at h
      have hne : ¬k0 = k := fun hk => h.1 hk.symm
      simp [alookup, hne, ih h.2]

theorem alookup_aremove_self {α : Type} (l : List (String × α)) (k : String)
    (hnd : (l.map Prod.fst).Nodup) : alookup (aremove l k) k = none := by
  induction l with
  | nil => simp [aremove, alookup]
  | cons hd tl ih =>
      obtain ⟨k0, v0⟩ := hd
      simp only [List.map_cons, List.nodup_cons] at hnd
      by_cases h0 : k0 = k
      · subst h0
        simp only [aremove, if_pos rfl]
        exact alookup_eq_none_of_not_mem tl k0 hnd.1
      · simp [aremove, alookup, h0, ih hnd.2]

theorem alookup_aremove_other {α : Type} (l : List (String × α)) (k k2 : String)
    (h : k2 ≠ k) : alookup (aremove l k) k2 = alookup l k2 := by
  induction l with
  | nil => simp [aremove, alookup]
  | cons hd tl ih =>
      obtain ⟨k0, v0⟩ := hd
      by_cases h0 : k0 = k
      · subst h0
        have hne : ¬k0 = k2 := fun hk => h hk.symm
        simp [aremove, alookup, hne]
      · simp [aremove, alookup, h0, ih]

/-! ### Session argument cache (`_get_function_arg_from_cache`,
`_set_function_arg_to_cache`, lines 106–159) -/

/-- A value stored in `self.cache["function_args"]`; the source annotates
the argument as `str | int` and additionally stores booleans. -/
inductive ArgVal : Type
  | strv (s : String)
  | intv (n : ℤ)
  | boolv (b : Bool)
deriving DecidableEq, Repr

/-- Model of `_get_function_arg_from_cache` (lines 106–129), debug printing
dropped.  `fa` is `self.cache["function_args"]`. -/
def getFunctionArgFromCache (cacheEnabled : Bool)
    (fa : List (String × ArgVal)) (argName : String) (argValue : Option ArgVal) :
    Option ArgVal :=
  if cacheEnabled = false then argValue
  else
    match argValue with
    | none => alookup fa argName
    | some (ArgVal.strv s) =>
        if pyLower s = "current" then alookup fa argName else some (ArgVal.strv s)
    | some v => some v

/-- Model of `_set_function_arg_to_cache` (lines 131–159), debug printing dropped;
returns the updated `function_args` dict. -/
def setFunctionArgToCache (cacheEnabled : Bool)
    (fa : List (String × ArgVal)) (argName : String) (argValue : Option ArgVal) :
    List (String × ArgVal) :=
  if cacheEnabled = false then fa
  else
    match argValue with
    | some v => aset fa argName v
    | none => aremove fa argName

/-- Spec-side predicate (from §4.3 of the specification): the supplied
value triggers use of the cached value iff it is null or the literal
marker "current", case-insensitively. -/
def specCacheMarker : Option ArgVal → Bool
  | none => true
  | some (ArgVal.strv s) => pyLower s = "current"
  | some _ => false

/-! ### `difflib` model

`_find_closest_match` calls `difflib.get_close_matches(search, lst, n=10,
cutoff=0.2)`.  The strings involved are far below the autojunk threshold
(200 chars), so `SequenceMatcher` runs with no junk at all; its
`quick_ratio`/`real_quick_ratio` are upper bounds of `ratio`, so the
cutoff test reduces to `ratio >= cutoff`.  Ratios are modelled as exact
rationals (`0.2` becomes `1/5`; all inputs used in this development are
far from the float/rational boundary). -/

/-- Association lookup with `Nat` keys (the `j2len` dict). -/
def jlookup : List (Nat × Nat) → Nat → Option Nat
  | [], _ => none
  | (k, v) :: rest, key => if k = key then some v else jlookup rest key

/-- The indices `j` in `[blo, bhi)` with `b[j] = c`, ascending (the
`b2j` table restricted to the window, as iterated by
`SequenceMatcher.find_longest_match`). -/
def jIndices (b : List Char) (c : Char) (blo bhi : Nat) : List Nat :=
  (List.range b.length).filter (fun j => blo ≤ j && j < bhi && b.getD j ' ' == c)

/-- Core loop of `SequenceMatcher.find_longest_match` (the `j2len`
dynamic program), returning `(besti, bestj, bestsize)` before the
extension loops. -/
def flmMain (a b : List Char) (alo ahi blo bhi : Nat) : Nat × Nat × Nat :=
  (((List.range' alo (ahi - alo)).foldl
    (fun (acc : List (Nat × Nat) × (Nat × Nat × Nat)) i =>
      let j2lenOld := acc.1
      let aI := a.getD i ' '
      let js := jIndices b aI blo bhi
      js.foldl
        (fun (inner : List (Nat × Nat) × (Nat × Nat × Nat)) j =>
          let k := if j = 0 then 1 else (jlookup j2lenOld (j - 1)).getD 0 + 1
          let best := inner.2
          let best := if best.2.2 < k then (i + 1 - k, j + 1 - k, k) else best
          ((j, k) :: inner.1, best))
        ([], acc.2))
    ([], (alo, blo, 0)))).2

/-- First extension loop of `find_longest_match` (no junk: extend the
block over equal characters to the left). -/
def flmExtendLeft (a b : List Char) (alo blo : Nat) :
    Nat → Nat × Nat × Nat → Nat × Nat × Nat
  | 0, best => best
  | fuel + 1, (bi, bj, bs) =>
      if alo < bi ∧ blo < bj ∧ a.getD (bi - 1) ' ' = b.getD (bj - 1) ' ' then
        flmExtendLeft a b alo blo fuel (bi - 1, bj - 1, bs + 1)
      else (bi, bj, bs)

/-- Second extension loop of `find_longest_match` (extend to the right). -/
def flmExtendRight (a b : List Char) (ahi bhi : Nat) :
    Nat → Nat × Nat × Nat → Nat × Nat × Nat
  | 0, best => best
  | fuel + 1, (bi, bj, bs) =>
      if bi + bs < ahi ∧ bj + bs < bhi ∧ a.getD (bi + bs) ' ' = b.getD (bj + bs) ' ' then
        flmExtendRight a b ahi bhi fuel (bi, bj, bs + 1)
      else (bi, bj, bs)

/-- Model of `SequenceMatcher.find_longest_match` on the window
`a[alo:ahi] × b[blo:bhi]`, with no junk characters. -/
def findLongestMatch (a b : List Char) (alo ahi blo bhi : Nat) : Nat × Nat × Nat :=
  flmExtendRight a b ahi bhi b.length
    (flmExtendLeft a b alo blo a.length (flmMain a b alo ahi blo bhi))

/-- Total size of all matching blocks (`get_matching_blocks` recursion;
only the summed size is needed for `ratio`).  `fuel` dominates the
recursion depth; every recursive call strictly shrinks the window. -/
def matchingSizeAux (a b : List Char) : Nat → Nat → Nat → Nat → Nat → Nat
  | 0, _, _, _, _ => 0
  | fuel + 1, alo, ahi, blo, bhi =>
      let r := findLongestMatch a b alo ahi blo bhi
      if r.2.2 = 0 then 0
      else
        matchingSizeAux a b fuel alo r.1 blo r.2.1 + r.2.2 +
          matchingSizeAux a b fuel (r.1 + r.2.2) ahi (r.2.1 + r.2.2) bhi

/-- Total matched characters between `a` and `b`. -/
def matchingSize (a b : List Char) : Nat :=
  matchingSizeAux a b (a.length + b.length + 1) 0 a.length 0 b.length

/-- Model of `SequenceMatcher.ratio()` as an exact rational: `2*M / T`. -/
def seqRatioQ (a b : List Char) : ℚ :=
  if a.length + b.length = 0 then 1
  else (2 * matchingSize a b : ℚ) / (a.length + b.length : ℚ)

/-- Comparator used by `heapq.nlargest` on `(score, string)` pairs:
descending lexicographic tuple order (Python compares the strings on
equal scores). -/
def tupleGE (p q : ℚ × String) : Prop :=
  q.1 < p.1 ∨ (q.1 = p.1 ∧ (q.2 < p.2 ∨ q.2 = p.2))

instance : DecidableRel tupleGE := fun p q => by
  unfold tupleGE
  infer_instance

/-- Model of `difflib.get_close_matches(word, possibilities, n, cutoff=0.2)`. -/
def getCloseMatches (word : String) (possibilities : List String) (n : Nat) :
    List String :=
  let scored := possibilities.filterMap (fun x =>
    let r := seqRatioQ x.data word.data
    if 1/5 ≤ r then some (r, x) else none)
  ((List.insertionSort tupleGE scored).take n).map Prod.snd

/-- Is `needle` an infix of `hay` (Python `needle in hay` on strings)? -/
def listInfixQ (needle hay : List Char) : Bool :=
  (List.range (hay.length + 1)).any (fun i => List.isPrefixOf needle (hay.drop i))

/-! ### `_find_closest_match` (lines 484–568) -/

/-- Result of one `_find_closest_match` call: the returned value, the
`search_matches` cache afterwards, and whether the OpenAI oracle was
invoked. -/
structure FCMOut where
  result : Option String
  searchMatches : List (String × Option String)
  oracleCalled : Bool
deriving DecidableEq, Repr

/-- Result type: `_find_closest_match` can raise `IndexError` (`lst[0]` on an empty
list, line 507). -/
inductive FCMRes : Type
  | ok (o : FCMOut)
  | indexError
deriving DecidableEq, Repr

/-- Remove every space character (the `.replace(" ", "")` of line 507). -/
def stripSpaces (s : String) : String :=
  String.mk (s.data.filter (fun c => !(c = ' ')))

/-- The cache checksum of line 507:
`f"{len(lst)}--{lst[0]}--{search}".replace(" ", "")`. -/
def fcmChecksum (lst : List String) (hd : String) (s : String) : String :=
  stripSpaces (toString lst.length ++ "--" ++ hd ++ "--" ++ s)

/-- The `closest_matches` shortlist of lines 512–519:
`difflib.get_close_matches(search, lst, n=10, cutoff=0.2)`, extended by
the case-insensitive substring matches when the search term is shorter
than 3 characters. -/
def fcmShortlist (s : String) (lst : List String) : List String :=
  let cm0 := getCloseMatches s lst 10
  if s.length < 3 then
    cm0 ++ lst.filter (fun item => listInfixQ (pyLower s).data (pyLower item).data)
  else cm0

/-- Model of `_find_closest_match(search, lst)` (lines 484–568).  `oracle` is the
OpenAI call of lines 531–554, mapping the shortlist and the search term
to the answer text; `cache` is `self.cache["search_matches"]`.  Debug
printing and the `_add_context` side effect are dropped. -/
def findClosestMatch (oracle : List String → String → String)
    (cache : List (String × Option String)) (search : Option String)
    (lst : List String) : FCMRes :=
  match search with
  | none => FCMRes.ok ⟨none, cache, false⟩
  | some s =>
    if s ∈ lst then FCMRes.ok ⟨some s, cache, false⟩
    else
      match lst with
      | [] => FCMRes.indexError
      | hd :: _ =>
        let checksum := fcmChecksum lst hd s
        match alookup cache checksum with
        | some v => FCMRes.ok ⟨v, cache, false⟩
        | none =>
          let cms := fcmShortlist s lst
          if cms = [] then FCMRes.ok ⟨none, cache, false⟩
          else
            let answer := oracle cms s
            if answer = "None" then
              FCMRes.ok ⟨none, aset cache checksum none, true⟩
            else if ¬(answer ∈ cms) then
              FCMRes.ok ⟨none, aset cache checksum none, true⟩
            else
              FCMRes.ok ⟨some answer, aset cache checksum (some answer), true⟩

/-! ### Catalog data model

Entities as loaded by `_load_data` (only the fields the verified
functions read are modelled).  `short_name` is absent from fresh catalog
data and only ever written by `_get_best_trading_route`, hence an
`Option`. -/

/-- One price listing of a tradeport (`tradeport["prices"][code]`). -/
structure PriceListing where
  operation : String
  price_buy : ℚ
  price_sell : ℚ
  kind : String
  short_name : Option String
deriving DecidableEq, Repr

/-- A tradeport record; `prices` is the commodity-code-keyed dict. -/
structure Tradeport where
  code : String
  name : String
  system : String
  planet : String
  satellite : String
  city : String
  hull_trading : Bool
  prices : List (String × PriceListing)
deriving DecidableEq, Repr

/-- A ship record (`scu` is the cargo capacity). -/
structure Ship where
  code : String
  name : String
  scu : ℚ
  hull_trading : Bool
deriving DecidableEq, Repr

/-- A commodity record. -/
structure Commodity where
  code : String
  name : String
deriving DecidableEq, Repr

/-- A system/planet/satellite/city record (only `code` and `name` are
read by the functions verified here). -/
structure NamedEntity where
  code : String
  name : String
deriving DecidableEq, Repr

/-- The in-memory catalog (the `self.ships`, …, `self.tradeports`
collections). -/
structure Catalog where
  ships : List Ship
  commodities : List Commodity
  systems : List NamedEntity
  planets : List NamedEntity
  satellites : List NamedEntity
  cities : List NamedEntity
  tradeports : List Tradeport
deriving DecidableEq, Repr

def defaultTradeport : Tradeport :=
  ⟨"", "", "", "", "", "", false, []⟩

/-- Python truthiness of an optional string (`if not name: ...`). -/
def pyTruthyStr : Option String → Bool
  | none => false
  | some s => !s.isEmpty

/-- Model of `_get_ship_by_name` (lines 2422–2440): first ship whose formatted
name matches case-insensitively. -/
def getShipByName (cat : Catalog) (name : Option String) : Option Ship :=
  match name with
  | none => none
  | some s =>
      if s.isEmpty then none
      else cat.ships.find? (fun sh => pyLower sh.name == pyLower s)

/-- Model of `_get_commodity_by_name` (lines 2562–2580). -/
def getCommodityByName (cat : Catalog) (name : Option String) : Option Commodity :=
  match name with
  | none => none
  | some s =>
      if s.isEmpty then none
      else cat.commodities.find? (fun c => pyLower c.name == pyLower s)

/-- Shared shape of `_get_city_by_name`, `_get_satellite_by_name`,
`_get_planet_by_name` and `_get_system_by_name` (lines 2482–2560). -/
def findEntityByName (l : List NamedEntity) (name : Option String) : Option NamedEntity :=
  match name with
  | none => none
  | some s =>
      if s.isEmpty then none
      else l.find? (fun e => pyLower e.name == pyLower s)

/-- Model of `_get_tradeport_by_name` (lines 2442–2460). -/
def getTradeportByName (cat : Catalog) (name : Option String) : Option Tradeport :=
  match name with
  | none => none
  | some s =>
      if s.isEmpty then none
      else cat.tradeports.find? (fun tp => pyLower tp.name == pyLower s)

/-- Model of `_get_tradeports_by_positionname` (lines 2711–2752): all tradeports
under the named system/planet/satellite/city, or the named tradeport
itself. -/
def getTradeportsByPositionname (cat : Catalog) (name : Option String)
    (direct : Bool) : List Tradeport :=
  if pyTruthyStr name = false then []
  else
    match findEntityByName cat.systems name with
    | some sys =>
        cat.tradeports.filter (fun tp => tp.system == sys.code && (!direct || tp.planet.isEmpty))
    | none =>
      match findEntityByName cat.planets name with
      | some pl =>
          cat.tradeports.filter (fun tp => tp.planet == pl.code && (!direct || tp.satellite.isEmpty))
      | none =>
        match findEntityByName cat.satellites name with
        | some sat => cat.tradeports.filter (fun tp => tp.satellite == sat.code)
        | none =>
          match findEntityByName cat.cities name with
          | some ci => cat.tradeports.filter (fun tp => tp.city == ci.code)
          | none =>
            match getTradeportByName cat name with
            | some tp => [tp]
            | none => []

/-! ### Price lookups (`_get_data_location_sellprice`,
`_get_data_location_buyprice`, lines 1834–1850) -/

def getDataLocationSellprice (tp : Tradeport) (commodity : Commodity)
    (ship : Option Ship) (amount : ℚ) : Option ℚ :=
  match ship with
  | some sh =>
      if sh.hull_trading = true ∧ tp.hull_trading = false then none
      else (tp.prices.find? (fun kv => kv.1 == commodity.code && kv.2.operation == "sell")).map
        (fun kv => kv.2.price_sell * amount)
  | none =>
      (tp.prices.find? (fun kv => kv.1 == commodity.code && kv.2.operation == "sell")).map
        (fun kv => kv.2.price_sell * amount)

def getDataLocationBuyprice (tp : Tradeport) (commodity : Commodity)
    (ship : Option Ship) (amount : ℚ) : Option ℚ :=
  match ship with
  | some sh =>
      if sh.hull_trading = true ∧ tp.hull_trading = false then none
      else (tp.prices.find? (fun kv => kv.1 == commodity.code && kv.2.operation == "buy")).map
        (fun kv => kv.2.price_buy * amount)
  | none =>
      (tp.prices.find? (fun kv => kv.1 == commodity.code && kv.2.operation == "buy")).map
        (fun kv => kv.2.price_buy * amount)

/-! ### `_get_best_trading_route` (lines 2134–2420)

The search loop is embedded with the stored tradeport list threaded as
state, because the Python loop mutates the catalog in place: it writes
`price["short_name"] = attr` into the stored price listings (lines 2349
and 2354).  Exceptions the loop can raise are modelled with `Except`:
`KeyError` from `best_route["commodity"]["short_name"]` (line 2385, when
`best_route["commodity"]` is still the initial empty dict) and
`ZeroDivisionError` from `money / commodity["price_buy"]` (line 2365).
Name resolution via `_find_closest_match` is outside this function's
model: the position/ship/commodity names are taken as already canonical
(for canonical names the resolver is the identity, see `findClosestMatch`),
which matches a call with session caching disabled. -/

/-- Python exceptions the route search can raise. -/
inductive PyErr : Type
  | keyError
  | zeroDivisionError
deriving DecidableEq, Repr

/-- The `best_route` accumulator dict (line 2332), in its pre-formatting
shape: `start`/`end` hold the codes of the accumulated tradeports,
`commodity` the winning end-listing together with its dict key. -/
structure BestRoute where
  start : List String
  end_ : List String
  commodity : Option (String × PriceListing)
  profit : ℤ
  cargo : ℚ
  buy : ℚ
  sell : ℚ
deriving DecidableEq, Repr

def initBestRoute : BestRoute :=
  ⟨[], [], none, 0, 0, 0, 0⟩

/-- The filter of lines 2345–2348: the start-side listing is considered
(and marked) iff it is a "buy" listing passing the commodity filter and
the legality policy. -/
def buyListingOk (filter : Option Commodity) (illegalAllowed : Bool)
    (attr : String) (price : PriceListing) : Bool :=
  price.operation == "buy" &&
    (match filter with
     | none => true
     | some c => c.code == attr) &&
    (illegalAllowed || price.kind != "Drug")

/-- The write `price["short_name"] = attr` of line 2349, applied to every
qualifying buy listing of a start tradeport. -/
def markStartPrices (prices : List (String × PriceListing))
    (filter : Option Commodity) (illegalAllowed : Bool) :
    List (String × PriceListing) :=
  prices.map (fun kv =>
    if buyListingOk filter illegalAllowed kv.1 kv.2 then
      (kv.1, { kv.2 with short_name := some kv.1 })
    else kv)

/-- Apply `markStartPrices` to the stored tradeport(s) with the given
code (the aliasing of `start_tradeports` into `self.tradeports`). -/
def markStartTp (tps : List Tradeport) (code : String)
    (filter : Option Commodity) (illegalAllowed : Bool) : List Tradeport :=
  tps.map (fun tp =>
    if tp.code = code then
      { tp with prices := markStartPrices tp.prices filter illegalAllowed }
    else tp)

/-- The write `price["short_name"] = attr` of line 2354 for a single end
listing, applied to the stored tradeport(s) with the given code. -/
def markTpPrice (tps : List Tradeport) (code : String) (attr : String) :
    List Tradeport :=
  tps.map (fun tp =>
    if tp.code = code then
      { tp with
        prices := tp.prices.map (fun kv =>
          if kv.1 = attr then (kv.1, { kv.2 with short_name := some kv.1 }) else kv) }
    else tp)

/-- The `commodities` list built at lines 2343–2350 for one start
tradeport: its qualifying buy listings, each with `short_name` set. -/
def buyCommodities (prices : List (String × PriceListing))
    (filter : Option Commodity) (illegalAllowed : Bool) :
    List (String × PriceListing) :=
  (prices.filter (fun kv => buyListingOk filter illegalAllowed kv.1 kv.2)).map
    (fun kv => (kv.1, { kv.2 with short_name := some kv.1 }))

/-- The prices dict of the stored tradeport with the given code. -/
def pricesOfCode (tps : List Tradeport) (code : String) :
    List (String × PriceListing) :=
  match tps.find? (fun tp => tp.code == code) with
  | some tp => tp.prices
  | none => []

/-- Search state: the stored tradeports (mutated in place by the loop)
and the `best_route` accumulator. -/
structure SearchSt where
  tps : List Tradeport
  best : BestRoute
deriving DecidableEq, Repr

/-- Innermost loop (lines 2355–2391): one end listing `(attr, price)`
against every start commodity. -/
def routeInner (money : Option ℤ) (cargoSpace : ℚ)
    (startCode endCode : String) (attr : String) (price : PriceListing) :
    List (String × PriceListing) → BestRoute → Except PyErr BestRoute
  | [], best => Except.ok best
  | (cAttr, c) :: rest, best =>
      if cAttr = attr ∧ price.operation = "sell" ∧ c.price_buy < price.price_sell then
        let cargoE : Except PyErr ℚ :=
          match money with
          | none => Except.ok cargoSpace
          | some m =>
              if c.price_buy = 0 then Except.error PyErr.zeroDivisionError
              else Except.ok (min ((⌊(m : ℚ) / c.price_buy⌋ : ℤ) : ℚ) cargoSpace)
        match cargoE with
        | Except.error e => Except.error e
        | Except.ok cargo =>
          if 1 ≤ cargo then
            let profit := pyRound (cargo * (price.price_sell - c.price_buy))
            if best.profit < profit then
              routeInner money cargoSpace startCode endCode attr price rest
                { start := [startCode], end_ := [endCode],
                  commodity := some (attr, price), profit := profit, cargo := cargo,
                  buy := c.price_buy * cargo, sell := price.price_sell * cargo }
            else if profit = best.profit then
              match best.commodity with
              | none => Except.error PyErr.keyError
              | some bc =>
                  if bc.1 = attr then
                    routeInner money cargoSpace startCode endCode attr price rest
                      { best with
                        start := if startCode ∈ best.start then best.start
                                 else best.start ++ [startCode],
                        end_ := if endCode ∈ best.end_ then best.end_
                                else best.end_ ++ [endCode] }
                  else routeInner money cargoSpace startCode endCode attr price rest best
            else routeInner money cargoSpace startCode endCode attr price rest best
          else routeInner money cargoSpace startCode endCode attr price rest best
      else routeInner money cargoSpace startCode endCode attr price rest best

/-- Middle loop (lines 2353–2391): every listing of one end tradeport;
each listing's `short_name` is written into the store before use.  On an
exception the store at raise time is carried in the error. -/
def routeEndPrices (money : Option ℤ) (cargoSpace : ℚ) (startCode : String)
    (commodities : List (String × PriceListing)) (endCode : String) :
    List (String × PriceListing) → SearchSt →
    Except (PyErr × List Tradeport) SearchSt
  | [], st => Except.ok st
  | (attr, price) :: rest, st =>
      let tps2 := markTpPrice st.tps endCode attr
      let price2 := { price with short_name := some attr }
      match routeInner money cargoSpace startCode endCode attr price2 commodities st.best with
      | Except.error e => Except.error (e, tps2)
      | Except.ok best2 =>
          routeEndPrices money cargoSpace startCode commodities endCode rest ⟨tps2, best2⟩

/-- Loop over the end tradeports (line 2352). -/
def routeEnds (money : Option ℤ) (cargoSpace : ℚ) (startCode : String)
    (commodities : List (String × PriceListing)) :
    List String → SearchSt → Except (PyErr × List Tradeport) SearchSt
  | [], st => Except.ok st
  | e :: rest, st =>
      match routeEndPrices money cargoSpace startCode commodities e
          (pricesOfCode st.tps e) st with
      | Except.error err => Except.error err
      | Except.ok st2 => routeEnds money cargoSpace startCode commodities rest st2

/-- Outer loop over the start tradeports (line 2342), including the
start-side marking and the `commodities` snapshot. -/
def routeStarts (money : Option ℤ) (cargoSpace : ℚ)
    (filter : Option Commodity) (illegalAllowed : Bool) (endCodes : List String) :
    List String → SearchSt → Except (PyErr × List Tradeport) SearchSt
  | [], st => Except.ok st
  | sCode :: rest, st =>
      let tps2 := markStartTp st.tps sCode filter illegalAllowed
      let commodities := buyCommodities (pricesOfCode tps2 sCode) filter illegalAllowed
      match routeEnds money cargoSpace sCode commodities endCodes ⟨tps2, st.best⟩ with
      | Except.error err => Except.error err
      | Except.ok st2 => routeStarts money cargoSpace filter illegalAllowed endCodes rest st2

/-- The distinct return points of `_get_best_trading_route`, in source
order; `route` is the successful JSON result of line 2420 in its
pre-formatting shape, `raised` an uncaught exception. -/
inductive RouteOutcome : Type
  | noShipGiven
  | shipLookupFailed
  | noValidStartHull
  | noValidStart
  | noValidEnd
  | sameStartEnd
  | notEnoughCargoOrMoney
  | noRouteFound
  | route (r : BestRoute)
  | raised (e : PyErr)
deriving DecidableEq, Repr

/-- Result of `_get_best_trading_route`: the outcome together with the
stored tradeport list after the call (the call mutates it). -/
structure RouteReturn where
  outcome : RouteOutcome
  tradeports : List Tradeport
deriving DecidableEq, Repr

/-- The effective cargo space of lines 2268–2272. -/
def effectiveCargoSpace (scu : ℚ) (fcs : Option ℚ) : ℚ :=
  match fcs with
  | some f => if f ≠ 0 then (if scu < f then scu else f) else scu
  | none => scu

/-- Lines 2180–2181: a supplied budget below 1 is discarded. -/
def moneyNormOf (moneyToSpend : Option ℤ) : Option ℤ :=
  match moneyToSpend with
  | some m => if m < 1 then none else some m
  | none => none

/-- Lines 2182–2183: a supplied free-cargo override truncating below 1
is discarded. -/
def fcsNormOf (freeCargoSpace : Option ℚ) : Option ℚ :=
  match freeCargoSpace with
  | some f => if pyTrunc f < 1 then none else some f
  | none => none

/-- Lines 2281–2287: the start tradeports, hull-filtered when the ship
requires hull trading. -/
def startTradeportsOf (cat : Catalog) (ship : Ship)
    (positionStartName : Option String) : List Tradeport :=
  let s0 := getTradeportsByPositionname cat positionStartName false
  if ship.hull_trading then s0.filter (fun tp => tp.hull_trading) else s0

/-- Lines 2301–2310: the end tradeports before the hull filter; when the
end position resolves to nothing they default to every tradeport sharing
the first start tradeport's system. -/
def endTradeports1Of (cat : Catalog) (startTps : List Tradeport)
    (positionEndName : Option String) : List Tradeport :=
  let e0 := getTradeportsByPositionname cat positionEndName false
  if e0.length < 1 then
    cat.tradeports.filter
      (fun tp => tp.system == (startTps.headD defaultTradeport).system)
  else e0

/-- Lines 2317–2322: hull filter on the end tradeports. -/
def endTradeportsOf (ship : Ship) (endTps1 : List Tradeport) : List Tradeport :=
  if ship.hull_trading then endTps1.filter (fun tp => tp.hull_trading) else endTps1

/-- Model of `_get_best_trading_route` (lines 2134–2420) with already-resolved
names.  Covers the input normalisation of lines 2176–2183 and everything
from line 2267 on; the `_find_closest_match` round-trips of lines
2185–2265 are the identity on canonical names and the session-cache
writes do not influence this call's result. -/
def getBestTradingRoute (cat : Catalog) (shipName : Option String)
    (moneyToSpend : Option ℤ) (positionStartName : Option String)
    (freeCargoSpace : Option ℚ) (positionEndName : Option String)
    (commodityName : Option String) (illegalAllowed : Bool) : RouteReturn :=
  match shipName with
  | none => ⟨RouteOutcome.noShipGiven, cat.tradeports⟩
  | some sn =>
    let money : Option ℤ := moneyNormOf moneyToSpend
    let fcs : Option ℚ := fcsNormOf freeCargoSpace
    match getShipByName cat (some sn) with
    | none => ⟨RouteOutcome.shipLookupFailed, cat.tradeports⟩
    | some ship =>
      let cargoSpace := effectiveCargoSpace ship.scu fcs
      let commodityFilter := getCommodityByName cat commodityName
      let startTps := startTradeportsOf cat ship positionStartName
      if startTps.length < 1 then
        if ship.hull_trading then ⟨RouteOutcome.noValidStartHull, cat.tradeports⟩
        else ⟨RouteOutcome.noValidStart, cat.tradeports⟩
      else
        let endTps0 := getTradeportsByPositionname cat positionEndName false
        if endTps0.length < 1 ∧ positionEndName ≠ none then
          ⟨RouteOutcome.noValidEnd, cat.tradeports⟩
        else
          let endTps1 := endTradeports1Of cat startTps positionEndName
          if pyTruthyStr positionEndName ∧ endTps1.length = 1 ∧ startTps.length = 1 ∧
              (endTps1.headD defaultTradeport).code = (startTps.headD defaultTradeport).code then
            ⟨RouteOutcome.sameStartEnd, cat.tradeports⟩
          else
            let endTps := endTradeportsOf ship endTps1
            if cargoSpace ≤ 0 ∨ (match money with | some m => m ≤ 0 | none => false : Bool) = true then
              ⟨RouteOutcome.notEnoughCargoOrMoney, cat.tradeports⟩
            else
              match routeStarts money cargoSpace commodityFilter illegalAllowed
                  (endTps.map (fun tp => tp.code)) (startTps.map (fun tp => tp.code))
                  ⟨cat.tradeports, initBestRoute⟩ with
              | Except.error err => ⟨RouteOutcome.raised err.1, err.2⟩
              | Except.ok st =>
                  if st.best.start.length = 0 then ⟨RouteOutcome.noRouteFound, st.tps⟩
                  else ⟨RouteOutcome.route st.best, st.tps⟩

/-! ### `_get_multiple_best_locations_to_sell_to` /
`_get_multiple_best_locations_to_buy_from` (lines 1580–1832), modelled
from the `selloptions`/`buyoptions` aggregation onwards (lines
1675–1705 and 1802–1832); names are taken as resolved, exactly as for
`getBestTradingRoute`. -/

/-- Model of `selloptions[price].append(tradeport)` with Python-dict key order:
a new price key is appended at the end, an existing key keeps its
position and its tradeport list grows at the end. -/
def pushOption (acc : List (ℚ × List Tradeport)) (p : ℚ) (tp : Tradeport) :
    List (ℚ × List Tradeport) :=
  match acc with
  | [] => [(p, [tp])]
  | (p0, l) :: rest =>
      if p0 = p then (p0, l ++ [tp]) :: rest else (p0, l) :: pushOption rest p tp

/-- The `selloptions` dict after the loop of lines 1685–1692. -/
def buildSellOptions (tps : List Tradeport) (commodity : Commodity)
    (ship : Option Ship) (amount : ℚ) : List (ℚ × List Tradeport) :=
  tps.foldl (fun acc tp =>
    match getDataLocationSellprice tp commodity ship amount with
    | none => acc
    | some p => pushOption acc p tp) []

/-- The `buyoptions` dict after the loop of lines 1812–1819. -/
def buildBuyOptions (tps : List Tradeport) (commodity : Commodity)
    (ship : Option Ship) (amount : ℚ) : List (ℚ × List Tradeport) :=
  tps.foldl (fun acc tp =>
    match getDataLocationBuyprice tp commodity ship amount with
    | none => acc
    | some p => pushOption acc p tp) []

/-- The `amount` normalisation of lines 1675–1680. -/
def amountNorm (a : Option ℤ) : ℤ :=
  let x := a.getD 1
  if x < 1 then 1 else x

/-- The `maximal_number_of_locations` normalisation of lines 1681–1683. -/
def maxLocsNorm (m : ℤ) : ℤ :=
  if m < 1 then 3 else m

/-- Lines 1694–1695: sort the price levels descending (`reverse=True`;
price keys are unique, so Python never compares the values) and keep the
first `maximal_number_of_locations` levels. -/
def sellOptionsSelected (tps : List Tradeport) (commodity : Commodity)
    (ship : Option Ship) (amountRaw : Option ℤ) (maxRaw : ℤ) :
    List (ℚ × List Tradeport) :=
  (List.insertionSort (fun x y : ℚ × List Tradeport => y.1 ≤ x.1)
      (buildSellOptions tps commodity ship ((amountNorm amountRaw : ℤ) : ℚ))).take
    (maxLocsNorm maxRaw).toNat

/-- Lines 1821–1822 (buy side: ascending sort). -/
def buyOptionsSelected (tps : List Tradeport) (commodity : Commodity)
    (ship : Option Ship) (amountRaw : Option ℤ) (maxRaw : ℤ) :
    List (ℚ × List Tradeport) :=
  (List.insertionSort (fun x y : ℚ × List Tradeport => x.1 ≤ y.1)
      (buildBuyOptions tps commodity ship ((amountNorm amountRaw : ℤ) : ℚ))).take
    (maxLocsNorm maxRaw).toNat

/-- The tradeports named in the output text (lines 1699–1702): every
tradeport of every selected price level. -/
def sellLocationsListed (tps : List Tradeport) (commodity : Commodity)
    (ship : Option Ship) (amountRaw : Option ℤ) (maxRaw : ℤ) : List Tradeport :=
  ((sellOptionsSelected tps commodity ship amountRaw maxRaw).map Prod.snd).flatten

/-- Buy-side counterpart (lines 1826–1829). -/
def buyLocationsListed (tps : List Tradeport) (commodity : Commodity)
    (ship : Option Ship) (amountRaw : Option ℤ) (maxRaw : ℤ) : List Tradeport :=
  ((buyOptionsSelected tps commodity ship amountRaw maxRaw).map Prod.snd).flatten

/-! ## Claims -/

/-- C7: the session argument cache: `get(name, v)` returns the cached
value (or null if absent) exactly when `v` is null or the marker
"current" case-insensitively, and returns `v` unchanged otherwise;
`set(name, v)` with non-null `v` stores/overwrites the entry, and
`set(name, null)` deletes it, leaving all other entries unchanged. -/
theorem c7_session_argument_cache (fa : List (String × ArgVal)) (argName : String)
    (v : Option ArgVal) (x : ArgVal) (other : String)
    (hnd : (fa.map Prod.fst).Nodup) (hother : other ≠ argName) :
    getFunctionArgFromCache true fa argName v =
      (if specCacheMarker v then alookup fa argName else v) ∧
    alookup (setFunctionArgToCache true fa argName (some x)) argName = some x ∧
    alookup (setFunctionArgToCache true fa argName none) argName = none ∧
    alookup (setFunctionArgToCache true fa argName v) other = alookup fa other := by
  refine ⟨?_, ?_, ?_, ?_⟩
  · match v with
    | none => simp [getFunctionArgFromCache, specCacheMarker]
    | some (ArgVal.strv s) =>
        by_cases h : pyLower s = "current" <;>
          simp [getFunctionArgFromCache, specCacheMarker, h]
    | some (ArgVal.intv n) => simp [getFunctionArgFromCache, specCacheMarker]
    | some (ArgVal.boolv b) => simp [getFunctionArgFromCache, specCacheMarker]
  · simpa [setFunctionArgToCache] using alookup_aset_self fa argName x
  · simpa [setFunctionArgToCache] using alookup_aremove_self fa argName hnd
  · match v with
    | none => simpa [setFunctionArgToCache] using alookup_aremove_other fa argName other hother
    | some y => simpa [setFunctionArgToCache] using alookup_aset_other fa argName other y hother

/-- C7 witness: the cache laws at a concrete cache state. -/
theorem c7_session_argument_cache_witness :
    getFunctionArgFromCache true [("shipName", ArgVal.strv "Hull C")] "money"
        (some (ArgVal.strv "CURRENT")) =
      (if specCacheMarker (some (ArgVal.strv "CURRENT")) then
        alookup [("shipName", ArgVal.strv "Hull C")] "money"
      else some (ArgVal.strv "CURRENT")) ∧
    alookup (setFunctionArgToCache true [("shipName", ArgVal.strv "Hull C")] "money"
        (some (ArgVal.intv 5000))) "money" = some (ArgVal.intv 5000) ∧
    alookup (setFunctionArgToCache true [("shipName", ArgVal.strv "Hull C")] "money"
        none) "money" = none ∧
    alookup (setFunctionArgToCache true [("shipName", ArgVal.strv "Hull C")] "money"
        (some (ArgVal.strv "CURRENT"))) "shipName" =
      alookup [("shipName", ArgVal.strv "Hull C")] "shipName" :=
  c7_session_argument_cache [("shipName", ArgVal.strv "Hull C")] "money"
    (some (ArgVal.strv "CURRENT")) (ArgVal.intv 5000) "shipName"
    (by decide) (by decide)

/-- Everything `get_close_matches` returns comes from `possibilities`. -/
theorem getCloseMatches_subset (word : String) (ps : List String) (n : Nat) :
    ∀ x ∈ getCloseMatches word ps n, x ∈ ps := by
  intro x hx
  simp only [getCloseMatches, List.mem_map] at hx
  obtain ⟨⟨r, y⟩, hmem, hxy⟩ := hx
  have h1 := List.mem_of_mem_take hmem
  have h2 := (List.perm_insertionSort tupleGE _).mem_iff.mp h1
  simp only [List.mem_filterMap] at h2
  obtain ⟨z, hz, hzy⟩ := h2
  by_cases hc : (1 : ℚ)/5 ≤ seqRatioQ z.data word.data
  · rw [if_pos hc] at hzy
    cases hzy
    cases hxy
    exact hz
  · rw [if_neg hc] at hzy
    cases hzy

/-- The oracle function used in the C2 scenarios: answer with the first
shortlist entry. -/
def cexOracle : List String → String → String := fun cms _ => cms.headD ""

/-- The oracle function used in the C3/C5 scenarios: always answer
"Bravo". -/
def c3Oracle : List String → String → String := fun _ _ => "Bravo"

/-- C2 counterexample: "area18" matches "Area18" case-insensitively but
not exactly, and the resolver then does call the oracle and does write
the resolution cache (the claim asserts it returns immediately with
neither). -/
theorem c2_counterexample :
    pyLower "area18" = pyLower "Area18" ∧
    ¬("area18" ∈ ["Area18"]) ∧
    findClosestMatch cexOracle [] (some "area18") ["Area18"] =
      FCMRes.ok ⟨some "Area18", [("1--Area18--area18", some "Area18")], true⟩ := by
  decide

/-- C2 (amended): an exact, case-sensitive match in the candidate list is
returned immediately, with no oracle call and no cache write. -/
theorem c2_exact_match_no_oracle (oracle : List String → String → String)
    (cache : List (String × Option String)) (s : String) (lst : List String)
    (h : s ∈ lst) :
    findClosestMatch oracle cache (some s) lst = FCMRes.ok ⟨some s, cache, false⟩ := by
  unfold findClosestMatch
  simp [h]

/-- C2 witness: the amended claim at a concrete exact match. -/
theorem c2_exact_match_no_oracle_witness :
    findClosestMatch cexOracle [] (some "Area18") ["Area18"] =
      FCMRes.ok ⟨some "Area18", [], false⟩ :=
  c2_exact_match_no_oracle cexOracle [] "Area18" ["Area18"] (by decide)

/-- C3 counterexample: a cache entry written for the list
["Alpha", "Bravo"] is replayed for the distinct list ["Alpha", "Charlie"]
(same length, same first element, same search), so the resolver returns
"Bravo" — a value outside the supplied candidate list. -/
theorem c3_counterexample :
    findClosestMatch c3Oracle [] (some "Xray") ["Alpha", "Bravo"] =
      FCMRes.ok ⟨some "Bravo", [("2--Alpha--Xray", some "Bravo")], true⟩ ∧
    findClosestMatch c3Oracle [("2--Alpha--Xray", some "Bravo")] (some "Xray")
        ["Alpha", "Charlie"] =
      FCMRes.ok ⟨some "Bravo", [("2--Alpha--Xray", some "Bravo")], false⟩ ∧
    ¬("Bravo" ∈ ["Alpha", "Charlie"]) := by
  decide

/-- C3 (amended): when the cache holds no entry for the call's checksum,
the resolver returns null or an element of the supplied candidate list,
and never echoes back an unresolved search string. -/
theorem c3_resolver_returns_candidates (oracle : List String → String → String)
    (cache : List (String × Option String)) (s hd : String) (rest : List String)
    (hmiss : alookup cache (fcmChecksum (hd :: rest) hd s) = none) :
    ∃ o : FCMOut, findClosestMatch oracle cache (some s) (hd :: rest) = FCMRes.ok o ∧
      (o.result = none ∨ ∃ x, o.result = some x ∧ x ∈ hd :: rest) ∧
      (s ∉ hd :: rest → o.result ≠ some s) := by
  by_cases hs : s ∈ hd :: rest
  · refine ⟨⟨some s, cache, false⟩, ?_, Or.inr ⟨s, rfl, hs⟩, fun hns => absurd hs hns⟩
    unfold findClosestMatch
    simp [hs]
  · have hsub2 : ∀ x ∈ fcmShortlist s (hd :: rest), x ∈ hd :: rest := by
      intro x hx
      simp only [fcmShortlist] at hx
      by_cases h3 : s.length < 3
      · rw [if_pos h3] at hx
        rcases List.mem_append.mp hx with hx | hx
        · exact getCloseMatches_subset s (hd :: rest) 10 x hx
        · exact List.mem_of_mem_filter hx
      · rw [if_neg h3] at hx
        exact getCloseMatches_subset s (hd :: rest) 10 x hx
    have heq : findClosestMatch oracle cache (some s) (hd :: rest) =
        (if fcmShortlist s (hd :: rest) = [] then
          FCMRes.ok ⟨none, cache, false⟩
        else if oracle (fcmShortlist s (hd :: rest)) s = "None" then
          FCMRes.ok ⟨none, aset cache (fcmChecksum (hd :: rest) hd s) none, true⟩
        else if ¬(oracle (fcmShortlist s (hd :: rest)) s ∈ fcmShortlist s (hd :: rest)) then
          FCMRes.ok ⟨none, aset cache (fcmChecksum (hd :: rest) hd s) none, true⟩
        else
          FCMRes.ok ⟨some (oracle (fcmShortlist s (hd :: rest)) s),
            aset cache (fcmChecksum (hd :: rest) hd s)
              (some (oracle (fcmShortlist s (hd :: rest)) s)), true⟩) := by
      unfold findClosestMatch
      simp only [if_neg hs, hmiss]
    rw [heq]
    by_cases hemp : fcmShortlist s (hd :: rest) = []
    · rw [if_pos hemp]
      exact ⟨⟨none, cache, false⟩, rfl, Or.inl rfl, fun _ => by simp⟩
    · rw [if_neg hemp]
      by_cases hnone : oracle (fcmShortlist s (hd :: rest)) s = "None"
      · rw [if_pos hnone]
        exact ⟨⟨none, _, true⟩, rfl, Or.inl rfl, fun _ => by simp⟩
      · rw [if_neg hnone]
        by_cases hin : oracle (fcmShortlist s (hd :: rest)) s ∈ fcmShortlist s (hd :: rest)
        · rw [if_neg (by simpa using hin)]
          refine ⟨⟨some (oracle (fcmShortlist s (hd :: rest)) s), _, true⟩, rfl,
            Or.inr ⟨oracle (fcmShortlist s (hd :: rest)) s, rfl, hsub2 _ hin⟩, fun hns => ?_⟩
          intro hcontra
          apply hns
          have hes : oracle (fcmShortlist s (hd :: rest)) s = s := by
            simpa using hcontra
          rw [← hes]
          exact hsub2 _ hin
        · rw [if_pos (by simpa using hin)]
          exact ⟨⟨none, _, true⟩, rfl, Or.inl rfl, fun _ => by simp⟩

/-- C3 witness: the amended claim instantiated on a concrete fuzzy
resolution. -/
theorem c3_resolver_returns_candidates_witness :
    ∃ o : FCMOut, findClosestMatch c3Oracle [] (some "Xray") ["Alpha", "Bravo"] =
        FCMRes.ok o ∧
      (o.result = none ∨ ∃ x, o.result = some x ∧ x ∈ ["Alpha", "Bravo"]) ∧
      ("Xray" ∉ ["Alpha", "Bravo"] → o.result ≠ some "Xray") :=
  c3_resolver_returns_candidates c3Oracle [] "Xray" "Alpha" ["Bravo"] (by decide)

/-- C5 counterexample: two resolver calls with the same search string and
different candidate lists (same length, same first element) share the
cache entry: the first call's oracle answer is replayed by the second
call without an oracle call. -/
theorem c5_counterexample :
    (["Alpha", "Bravo"] : List String) ≠ ["Alpha", "Charlie"] ∧
    findClosestMatch c3Oracle [] (some "Xray") ["Alpha", "Bravo"] =
      FCMRes.ok ⟨some "Bravo", [("2--Alpha--Xray", some "Bravo")], true⟩ ∧
    findClosestMatch c3Oracle [("2--Alpha--Xray", some "Bravo")] (some "Xray")
        ["Alpha", "Charlie"] =
      FCMRes.ok ⟨some "Bravo", [("2--Alpha--Xray", some "Bravo")], false⟩ ∧
    fcmChecksum ["Alpha", "Bravo"] "Alpha" "Xray" =
      fcmChecksum ["Alpha", "Charlie"] "Alpha" "Xray" := by
  decide

/-- C5 (amended): the cache key identifies only the candidate list's
length and first element together with the search string (spaces
stripped) — not the candidate set.  Any two lists with equal length and
equal first element yield the same key, and a call whose key is already
cached returns the cached value with no oracle call. -/
theorem c5_cache_key_semantics (oracle : List String → String → String)
    (cache : List (String × Option String)) (s hd : String)
    (rest1 rest2 : List String) (v : Option String)
    (hs2 : s ∉ hd :: rest2)
    (hlen : rest1.length = rest2.length)
    (hhit : alookup cache (fcmChecksum (hd :: rest1) hd s) = some v) :
    fcmChecksum (hd :: rest1) hd s = fcmChecksum (hd :: rest2) hd s ∧
    findClosestMatch oracle cache (some s) (hd :: rest2) = FCMRes.ok ⟨v, cache, false⟩ := by
  have hck : fcmChecksum (hd :: rest1) hd s = fcmChecksum (hd :: rest2) hd s := by
    simp [fcmChecksum, hlen]
  refine ⟨hck, ?_⟩
  rw [hck] at hhit
  unfold findClosestMatch
  simp only [if_neg hs2, hhit]

/-- C5 witness: the amended claim at the concrete colliding lists. -/
theorem c5_cache_key_semantics_witness :
    fcmChecksum ["Alpha", "Bravo"] "Alpha" "Xray" =
      fcmChecksum ["Alpha", "Charlie"] "Alpha" "Xray" ∧
    findClosestMatch c3Oracle [("2--Alpha--Xray", some "Bravo")] (some "Xray")
        ["Alpha", "Charlie"] =
      FCMRes.ok ⟨some "Bravo", [("2--Alpha--Xray", some "Bravo")], false⟩ :=
  c5_cache_key_semantics c3Oracle [("2--Alpha--Xray", some "Bravo")] "Xray" "Alpha"
    ["Bravo"] ["Charlie"] (some "Bravo") (by decide) (by decide) (by decide)

/-! ### Concrete catalogs used as witnesses/counterexamples -/

/-- A tradeport buying Laranite (player sells) is not needed; `tpAlpha`
sells Laranite to the player ("buy" operation) at 10. -/
def tpAlpha : Tradeport :=
  ⟨"TP1", "Port Alpha", "ST", "", "", "", true,
    [("LARANITE", ⟨"buy", 10, 12, "Metal", none⟩)]⟩

/-- Tradeport `tpBeta` buys Laranite from the player ("sell" operation) at 25. -/
def tpBeta : Tradeport :=
  ⟨"TP2", "Port Beta", "ST", "", "", "", true,
    [("LARANITE", ⟨"sell", 8, 25, "Metal", none⟩)]⟩

/-- Two tradeports in one system, one plain freighter. -/
def catTwoPorts : Catalog :=
  ⟨[⟨"SH1", "Freighter", 100, false⟩], [⟨"LARANITE", "Laranite"⟩],
   [⟨"ST", "Stanton"⟩], [], [], [], [tpAlpha, tpBeta]⟩

/-- A catalog whose only tradeport is `tpAlpha`. -/
def catOnePort : Catalog :=
  ⟨[⟨"SH1", "Freighter", 100, false⟩], [⟨"LARANITE", "Laranite"⟩],
   [⟨"ST", "Stanton"⟩], [], [], [], [tpAlpha]⟩

/-- Fractional prices: buying at 10, selling at 10.2; with a 2 SCU ship
the first qualifying pair yields `round(2 * 0.2) = 0` profit. -/
def catFracPrices : Catalog :=
  ⟨[⟨"SH1", "Freighter", 2, false⟩], [⟨"ASTA", "Astatine"⟩],
   [⟨"ST", "Stanton"⟩], [], [], [],
   [⟨"TP1", "Port Alpha", "ST", "", "", "", true,
      [("ASTA", ⟨"buy", 10, 12, "Metal", none⟩)]⟩,
    ⟨"TP2", "Port Beta", "ST", "", "", "", true,
      [("ASTA", ⟨"sell", 8, 51/5, "Metal", none⟩)]⟩]⟩

/-- C4 counterexample: the start location resolves to exactly one
tradeport, the end location is omitted and defaults to the same single
tradeport, yet the optimizer answers "No route found", not the
"start and end are identical" message — the identity check of line 2312
is guarded by `if positionEndName` and is skipped for a defaulted end. -/
theorem c4_counterexample :
    getTradeportsByPositionname catOnePort (some "Port Alpha") false = [tpAlpha] ∧
    endTradeports1Of catOnePort [tpAlpha] none = [tpAlpha] ∧
    (getBestTradingRoute catOnePort (some "Freighter") none (some "Port Alpha")
        none none none true).outcome = RouteOutcome.noRouteFound ∧
    ¬((getBestTradingRoute catOnePort (some "Freighter") none (some "Port Alpha")
        none none none true).outcome = RouteOutcome.sameStartEnd) := by
  decide

/-- C4 (amended): when the end location is explicitly supplied (a truthy
name) and both the start and end sets resolve to the same single
tradeport, the optimizer returns the "start and end are identical"
outcome. -/
theorem c4_same_start_end_explicit (cat : Catalog) (sn : String) (money : Option ℤ)
    (psn : Option String) (fcs : Option ℚ) (pen : String) (cn : Option String)
    (ill : Bool) (ship : Ship) (s e : Tradeport)
    (hship : getShipByName cat (some sn) = some ship)
    (hstart : startTradeportsOf cat ship psn = [s])
    (hend0 : getTradeportsByPositionname cat (some pen) false = [e])
    (hpen : pen.isEmpty = false)
    (hcode : e.code = s.code) :
    (getBestTradingRoute cat (some sn) money psn fcs (some pen) cn ill).outcome =
      RouteOutcome.sameStartEnd := by
  unfold getBestTradingRoute
  simp only [hship, hstart, hend0, endTradeports1Of, pyTruthyStr, hpen, hcode,
    List.length_cons, List.length_nil, List.headD_cons]
  simp [hcode]

/-- C4 witness: the amended claim at a concrete explicit end location. -/
theorem c4_same_start_end_explicit_witness :
    (getBestTradingRoute catOnePort (some "Freighter") none (some "Port Alpha")
        none (some "Port Alpha") none true).outcome = RouteOutcome.sameStartEnd :=
  c4_same_start_end_explicit catOnePort "Freighter" none (some "Port Alpha") none
    "Port Alpha" none true ⟨"SH1", "Freighter", 100, false⟩ tpAlpha tpAlpha
    (by decide) (by decide) (by decide) (by decide) (by decide)

/-- C9: on `catFracPrices` the first qualifying buy/sell pair has
`round(cargo * margin) = 0`, equal to the initial best profit, so the
tie branch reads `best_route["commodity"]["short_name"]` from the
initial empty dict and the search raises `KeyError` — contradicting the
function's own docstring ("Raises: None"). -/
theorem c9_keyerror_on_zero_profit_tie :
    (getBestTradingRoute catFracPrices (some "Freighter") none (some "Stanton")
        none none none true).outcome = RouteOutcome.raised PyErr.keyError := by
  decide

/-! ### C8: what the route search changes in the stored catalog -/

/-- Erase every `short_name` field of a tradeport's price listings. -/
def stripShortNames (tp : Tradeport) : Tradeport :=
  { tp with prices := tp.prices.map (fun kv => (kv.1, { kv.2 with short_name := none })) }

theorem stripShortNames_markStartTp (tps : List Tradeport) (code : String)
    (filter : Option Commodity) (ill : Bool) :
    (markStartTp tps code filter ill).map stripShortNames = tps.map stripShortNames := by
  unfold markStartTp
  rw [List.map_map]
  apply List.map_congr_left
  intro tp _
  by_cases h : tp.code = code
  · simp only [Function.comp_apply, if_pos h, stripShortNames, markStartPrices]
    congr 1
    rw [List.map_map]
    apply List.map_congr_left
    intro kv _
    by_cases hb : buyListingOk filter ill kv.1 kv.2
    · simp [hb]
    · simp [hb]
  · simp [Function.comp_apply, if_neg h]

theorem stripShortNames_markTpPrice (tps : List Tradeport) (code attr : String) :
    (markTpPrice tps code attr).map stripShortNames = tps.map stripShortNames := by
  unfold markTpPrice
  rw [List.map_map]
  apply List.map_congr_left
  intro tp _
  by_cases h : tp.code = code
  · simp only [Function.comp_apply, if_pos h, stripShortNames]
    congr 1
    rw [List.map_map]
    apply List.map_congr_left
    intro kv _
    by_cases hk : kv.1 = attr
    · simp [hk]
    · simp [hk]
  · simp [Function.comp_apply, if_neg h]

theorem routeEndPrices_strip (money : Option ℤ) (cargoSpace : ℚ) (startCode : String)
    (commodities : List (String × PriceListing)) (endCode : String)
    (ps : List (String × PriceListing)) (st : SearchSt) :
    (∀ r, routeEndPrices money cargoSpace startCode commodities endCode ps st =
        Except.ok r → r.tps.map stripShortNames = st.tps.map stripShortNames) ∧
    (∀ e tpsE, routeEndPrices money cargoSpace startCode commodities endCode ps st =
        Except.error (e, tpsE) → tpsE.map stripShortNames = st.tps.map stripShortNames) := by
  induction ps generalizing st with
  | nil =>
      constructor
      · intro r hr
        cases hr
        rfl
      · intro e tpsE hr
        cases hr
  | cons hd tl ih =>
      obtain ⟨attr, price⟩ := hd
      constructor
      · intro r hr
        simp only [routeEndPrices] at hr
        rcases hinner : routeInner money cargoSpace startCode endCode attr
            { price with short_name := some attr } commodities st.best with e | best2
        · rw [hinner] at hr
          cases hr
        · rw [hinner] at hr
          have := (ih ⟨markTpPrice st.tps endCode attr, best2⟩).1 r hr
          rw [this]
          exact stripShortNames_markTpPrice st.tps endCode attr
      · intro e tpsE hr
        simp only [routeEndPrices] at hr
        rcases hinner : routeInner money cargoSpace startCode endCode attr
            { price with short_name := some attr } commodities st.best with e2 | best2
        · rw [hinner] at hr
          cases hr
          exact stripShortNames_markTpPrice st.tps endCode attr
        · rw [hinner] at hr
          have := (ih ⟨markTpPrice st.tps endCode attr, best2⟩).2 e tpsE hr
          rw [this]
          exact stripShortNames_markTpPrice st.tps endCode attr

theorem routeEnds_strip (money : Option ℤ) (cargoSpace : ℚ) (startCode : String)
    (commodities : List (String × PriceListing)) (es : List String) (st : SearchSt) :
    (∀ r, routeEnds money cargoSpace startCode commodities es st =
        Except.ok r → r.tps.map stripShortNames = st.tps.map stripShortNames) ∧
    (∀ e tpsE, routeEnds money cargoSpace startCode commodities es st =
        Except.error (e, tpsE) → tpsE.map stripShortNames = st.tps.map stripShortNames) := by
  induction es generalizing st with
  | nil =>
      constructor
      · intro r hr
        cases hr
        rfl
      · intro e tpsE hr
        cases hr
  | cons hd tl ih =>
      constructor
      · intro r hr
        simp only [routeEnds] at hr
        rcases hstep : routeEndPrices money cargoSpace startCode commodities hd
            (pricesOfCode st.tps hd) st with err | st2
        · rw [hstep] at hr
          cases hr
        · rw [hstep] at hr
          have h2 := (ih st2).1 r hr
          have h1 := (routeEndPrices_strip money cargoSpace startCode commodities hd
            (pricesOfCode st.tps hd) st).1 st2 hstep
          rw [h2, h1]
      · intro e tpsE hr
        simp only [routeEnds] at hr
        rcases hstep : routeEndPrices money cargoSpace startCode commodities hd
            (pricesOfCode st.tps hd) st with err | st2
        · rw [hstep] at hr
          cases hr
          exact (routeEndPrices_strip money cargoSpace startCode commodities hd
            (pricesOfCode st.tps hd) st).2 e tpsE hstep
        · rw [hstep] at hr
          have h2 := (ih st2).2 e tpsE hr
          have h1 := (routeEndPrices_strip money cargoSpace startCode commodities hd
            (pricesOfCode st.tps hd) st).1 st2 hstep
          rw [h2, h1]

theorem routeStarts_strip (money : Option ℤ) (cargoSpace : ℚ)
    (filter : Option Commodity) (ill : Bool) (endCodes : List String)
    (ss : List String) (st : SearchSt) :
    (∀ r, routeStarts money cargoSpace filter ill endCodes ss st =
        Except.ok r → r.tps.map stripShortNames = st.tps.map stripShortNames) ∧
    (∀ e tpsE, routeStarts money cargoSpace filter ill endCodes ss st =
        Except.error (e, tpsE) → tpsE.map stripShortNames = st.tps.map stripShortNames) := by
  induction ss generalizing st with
  | nil =>
      constructor
      · intro r hr
        cases hr
        rfl
      · intro e tpsE hr
        cases hr
  | cons hd tl ih =>
      constructor
      · intro r hr
        simp only [routeStarts] at hr
        rcases hstep : routeEnds money cargoSpace hd
            (buyCommodities (pricesOfCode (markStartTp st.tps hd filter ill) hd) filter ill)
            endCodes ⟨markStartTp st.tps hd filter ill, st.best⟩ with err | st2
        · rw [hstep] at hr
          cases hr
        · rw [hstep] at hr
          have h2 := (ih st2).1 r hr
          have h1 := (routeEnds_strip money cargoSpace hd _ endCodes
            ⟨markStartTp st.tps hd filter ill, st.best⟩).1 st2 hstep
          rw [h2, h1]
          exact stripShortNames_markStartTp st.tps hd filter ill
      · intro e tpsE hr
        simp only [routeStarts] at hr
        rcases hstep : routeEnds money cargoSpace hd
            (buyCommodities (pricesOfCode (markStartTp st.tps hd filter ill) hd) filter ill)
            endCodes ⟨markStartTp st.tps hd filter ill, st.best⟩ with err | st2
        · rw [hstep] at hr
          cases hr
          have h1 := (routeEnds_strip money cargoSpace hd _ endCodes
            ⟨markStartTp st.tps hd filter ill, st.best⟩).2 e tpsE hstep
          rw [h1]
          exact stripShortNames_markStartTp st.tps hd filter ill
        · rw [hstep] at hr
          have h2 := (ih st2).2 e tpsE hr
          have h1 := (routeEnds_strip money cargoSpace hd _ endCodes
            ⟨markStartTp st.tps hd filter ill, st.best⟩).1 st2 hstep
          rw [h2, h1]
          exact stripShortNames_markStartTp st.tps hd filter ill

/-- C8 counterexample: entities are not immutable during a request — a
successful route search writes `short_name` into the stored price
listings, so the stored tradeports differ after the call. -/
theorem c8_counterexample :
    (getBestTradingRoute catTwoPorts (some "Freighter") none (some "Stanton")
        none none none true).tradeports ≠ catTwoPorts.tradeports ∧
    (getBestTradingRoute catTwoPorts (some "Freighter") none (some "Stanton")
        none none none true).tradeports =
      [{ tpAlpha with
          prices := [("LARANITE", ⟨"buy", 10, 12, "Metal", some "LARANITE"⟩)] },
       { tpBeta with
          prices := [("LARANITE", ⟨"sell", 8, 25, "Metal", some "LARANITE"⟩)] }] := by
  decide

/-- C8 (amended): the route search leaves every stored tradeport
unchanged except for the `short_name` keys it writes into price
listings: stripping `short_name` from the stored tradeports after any
call gives exactly the original catalog (all codes, names, parents,
flags, operations and prices are untouched). -/
theorem c8_only_short_name_mutated (cat : Catalog) (shipName : Option String)
    (moneyToSpend : Option ℤ) (positionStartName : Option String)
    (freeCargoSpace : Option ℚ) (positionEndName : Option String)
    (commodityName : Option String) (illegalAllowed : Bool) :
    ((getBestTradingRoute cat shipName moneyToSpend positionStartName freeCargoSpace
        positionEndName commodityName illegalAllowed).tradeports).map stripShortNames =
      cat.tradeports.map stripShortNames := by
  unfold getBestTradingRoute
  cases shipName with
  | none => rfl
  | some sn =>
      rcases hship : getShipByName cat (some sn) with _ | ship
      · simp only [hship]
      · simp only [hship]
        split
        · split <;> rfl
        · split
          · rfl
          · split
            · rfl
            · split
              · rfl
              · rcases hrs : routeStarts (moneyNormOf moneyToSpend)
                    (effectiveCargoSpace ship.scu (fcsNormOf freeCargoSpace))
                    (getCommodityByName cat commodityName) illegalAllowed
                    (List.map (fun tp => tp.code)
                      (endTradeportsOf ship
                        (endTradeports1Of cat (startTradeportsOf cat ship positionStartName)
                          positionEndName)))
                    (List.map (fun tp => tp.code)
                      (startTradeportsOf cat ship positionStartName))
                    ⟨cat.tradeports, initBestRoute⟩ with err | st
                · obtain ⟨e, tpsE⟩ := err
                  simp only [hrs]
                  exact (routeStarts_strip _ _ _ _ _ _ _).2 e tpsE hrs
                · simp only [hrs]
                  have h1 := (routeStarts_strip _ _ _ _ _ _ _).1 st hrs
                  split <;> exact h1

/-! ### C10: the locations limit bounds price levels, not tradeports -/

/-- Lookup of a price level in the grouped options. -/
def optLookup : List (ℚ × List Tradeport) → ℚ → Option (List Tradeport)
  | [], _ => none
  | (p0, l) :: rest, p => if p0 = p then some l else optLookup rest p

theorem optLookup_pushOption_self (acc : List (ℚ × List Tradeport)) (p : ℚ)
    (tp : Tradeport) :
    optLookup (pushOption acc p tp) p = some ((optLookup acc p).getD [] ++ [tp]) := by
  induction acc with
  | nil => simp [pushOption, optLookup]
  | cons hd tl ih =>
      obtain ⟨p0, l⟩ := hd
      by_cases h : p0 = p
      · subst h
        simp [pushOption, optLookup]
      · simp [pushOption, optLookup, h, ih]

theorem optLookup_pushOption_other (acc : List (ℚ × List Tradeport)) (p q : ℚ)
    (tp : Tradeport) (h : q ≠ p) :
    optLookup (pushOption acc p tp) q = optLookup acc q := by
  have hne2 : ¬p = q := fun hk => h hk.symm
  induction acc with
  | nil => simp [pushOption, optLookup, hne2]
  | cons hd tl ih =>
      obtain ⟨p0, l⟩ := hd
      by_cases h0 : p0 = p
      · subst h0
        have hne : ¬p0 = q := fun hk => h hk.symm
        simp [pushOption, optLookup, hne]
      · simp [pushOption, optLookup, h0, ih]

theorem pushOption_fst (acc : List (ℚ × List Tradeport)) (p : ℚ) (tp : Tradeport) :
    (pushOption acc p tp).map Prod.fst =
      if p ∈ acc.map Prod.fst then acc.map Prod.fst else acc.map Prod.fst ++ [p] := by
  induction acc with
  | nil => simp [pushOption]
  | cons hd tl ih =>
      obtain ⟨p0, l⟩ := hd
      by_cases h : p0 = p
      · subst h
        simp [pushOption]
      · have hne : ¬p = p0 := fun hk => h hk.symm
        by_cases hmem : p ∈ tl.map Prod.fst
        · simp [pushOption, h, ih, hmem, hne]
        · simp [pushOption, h, ih, hmem, hne]

theorem pushOption_keys_nodup (acc : List (ℚ × List Tradeport)) (p : ℚ)
    (tp : Tradeport) (h : (acc.map Prod.fst).Nodup) :
    ((pushOption acc p tp).map Prod.fst).Nodup := by
  rw [pushOption_fst]
  by_cases hmem : p ∈ acc.map Prod.fst
  · simpa [hmem] using h
  · simp only [if_neg hmem]
    rw [List.nodup_append]
    refine ⟨h, List.nodup_singleton p, ?_⟩
    intro x hx hxp
    rw [List.mem_singleton] at hxp
    subst hxp
    exact hmem hx

/-- Generic characterisation of the grouping fold (the loop bodies of
lines 1686–1692 and 1813–1819): after the fold, the level of price `q`
holds the previous level's tradeports followed by every processed
tradeport priced at `q`, in order. -/
theorem groupFold_lookup (f : Tradeport → Option ℚ) (tps : List Tradeport)
    (acc : List (ℚ × List Tradeport)) (q : ℚ) :
    optLookup (tps.foldl (fun acc tp =>
      match f tp with
      | none => acc
      | some p => pushOption acc p tp) acc) q =
    (match optLookup acc q, tps.filter (fun tp => decide (f tp = some q)) with
     | none, [] => none
     | none, l => some l
     | some l0, l => some (l0 ++ l)) := by
  induction tps generalizing acc with
  | nil =>
      simp only [List.foldl_nil, List.filter_nil]
      rcases optLookup acc q with _ | l0
      · rfl
      · simp
  | cons hd tl ih =>
      simp only [List.foldl_cons]
      rcases hf : f hd with _ | p
      · have hne : ¬(f hd = some q) := by simp [hf]
        simp only [List.filter_cons, decide_eq_true_eq, hne]
        rw [ih acc]
        simp
      · by_cases hq : p = q
        · subst hq
          have heq : f hd = some p := hf
          simp only [List.filter_cons, decide_eq_true_eq, heq]
          rw [ih (pushOption acc p hd)]
          rw [optLookup_pushOption_self]
          rcases hacc : optLookup acc p with _ | l0
          · simp only [hacc, Option.getD_none, List.nil_append]
            simp
          · simp only [hacc, Option.getD_some]
            rcases htl : tl.filter (fun tp => decide (f tp = some p)) with _ | ⟨x, xs⟩
            · simp
            · simp
        · have hne : ¬(f hd = some q) := by simp [hf, hq]
          simp only [List.filter_cons, decide_eq_true_eq, hne]
          rw [ih (pushOption acc p hd)]
          rw [optLookup_pushOption_other acc p q hd (fun hk => hq hk.symm)]
          simp

theorem groupFold_keys_nodup (f : Tradeport → Option ℚ) (tps : List Tradeport)
    (acc : List (ℚ × List Tradeport)) (h : (acc.map Prod.fst).Nodup) :
    (((tps.foldl (fun acc tp =>
      match f tp with
      | none => acc
      | some p => pushOption acc p tp) acc)).map Prod.fst).Nodup := by
  induction tps generalizing acc with
  | nil => simpa using h
  | cons hd tl ih =>
      simp only [List.foldl_cons]
      rcases hf : f hd with _ | p
      · exact ih acc h
      · exact ih (pushOption acc p hd) (pushOption_keys_nodup acc p hd h)

theorem optLookup_eq_some_of_mem (acc : List (ℚ × List Tradeport)) (p : ℚ)
    (l : List Tradeport) (hnd : (acc.map Prod.fst).Nodup) (hmem : (p, l) ∈ acc) :
    optLookup acc p = some l := by
  induction acc with
  | nil => cases hmem
  | cons hd tl ih =>
      obtain ⟨p0, l0⟩ := hd
      simp only [List.map_cons, List.nodup_cons] at hnd
      rcases List.mem_cons.mp hmem with heq | htl
      · cases heq
        simp [optLookup]
      · have hne : ¬p0 = p := by
          intro hpe
          subst hpe
          exact hnd.1 (List.mem_map.mpr ⟨(p0, l), htl, rfl⟩)
        simp [optLookup, hne, ih hnd.2 htl]

theorem mem_of_optLookup_some (acc : List (ℚ × List Tradeport)) (p : ℚ)
    (l : List Tradeport) (h : optLookup acc p = some l) : (p, l) ∈ acc := by
  induction acc with
  | nil => cases h
  | cons hd tl ih =>
      obtain ⟨p0, l0⟩ := hd
      by_cases h0 : p0 = p
      · subst h0
        simp only [optLookup, if_pos rfl] at h
        cases h
        exact List.mem_cons_self _ _
      · simp only [optLookup, if_neg h0] at h
        exact List.mem_cons_of_mem _ (ih h)

/-- The two catalogs of the C10 concrete instance: two tradeports buying
Gold from the player at the same unit price. -/
def c10Gold : Commodity := ⟨"GOLD", "Gold"⟩

def c10Tps : List Tradeport :=
  [⟨"TPA", "Port A", "ST", "", "", "", false, [("GOLD", ⟨"sell", 5, 6, "Metal", none⟩)]⟩,
   ⟨"TPB", "Port B", "ST", "", "", "", false, [("GOLD", ⟨"sell", 5, 6, "Metal", none⟩)]⟩]

/-- Generic completeness of the grouped-and-truncated selection: if a
tradeport's price level survives the truncation, that tradeport is
listed (the level's list holds every tradeport with that price). -/
theorem groupSelect_complete (f : Tradeport → Option ℚ)
    (r : (ℚ × List Tradeport) → (ℚ × List Tradeport) → Prop) [DecidableRel r]
    (tps : List Tradeport) (n : Nat) (tp : Tradeport) (p : ℚ)
    (htp : tp ∈ tps) (hp : f tp = some p)
    (hsel : p ∈ ((List.insertionSort r (tps.foldl (fun acc tp =>
        match f tp with
        | none => acc
        | some q => pushOption acc q tp) [])).take n).map Prod.fst) :
    tp ∈ (((List.insertionSort r (tps.foldl (fun acc tp =>
        match f tp with
        | none => acc
        | some q => pushOption acc q tp) [])).take n).map Prod.snd).flatten := by
  have hnd : (((tps.foldl (fun acc tp =>
      match f tp with
      | none => acc
      | some q => pushOption acc q tp) [])).map Prod.fst).Nodup :=
    groupFold_keys_nodup f tps [] (by simp)
  obtain ⟨⟨p', l'⟩, hmem_sel, hfst⟩ := List.mem_map.mp hsel
  simp only at hfst
  subst hfst
  have hin_build := (List.perm_insertionSort r _).mem_iff.mp (List.mem_of_mem_take hmem_sel)
  have hlk : optLookup (tps.foldl (fun acc tp =>
      match f tp with
      | none => acc
      | some q => pushOption acc q tp) []) p' = some l' :=
    optLookup_eq_some_of_mem _ _ _ hnd hin_build
  have htpf : tp ∈ tps.filter (fun tp => decide (f tp = some p')) :=
    List.mem_filter.mpr ⟨htp, by simp [hp]⟩
  have hlk2 : optLookup (tps.foldl (fun acc tp =>
      match f tp with
      | none => acc
      | some q => pushOption acc q tp) []) p' =
      some (tps.filter (fun tp => decide (f tp = some p'))) := by
    rw [groupFold_lookup f tps [] p']
    have hnil : optLookup [] p' = none := rfl
    rw [hnil]
    rcases hfl : tps.filter (fun tp => decide (f tp = some p')) with _ | ⟨x, xs⟩
    · rw [hfl] at htpf
      cases htpf
    · rfl
  rw [hlk] at hlk2
  have hl' : l' = tps.filter (fun tp => decide (f tp = some p')) := by
    injection hlk2
  apply List.mem_flatten.mpr
  refine ⟨l', List.mem_map.mpr ⟨(p', l'), hmem_sel, rfl⟩, ?_⟩
  rw [hl']
  exact htpf

/-- C10: in `_get_multiple_best_locations_to_sell_to` and the buy-side
counterpart, `maximalNumberOfLocations` bounds the number of distinct
price levels, not the number of tradeports: every tradeport sharing a
selected price level is listed, and on a concrete catalog with two
tradeports at one price level and limit 1, two tradeports are named. -/
theorem c10_limit_bounds_price_levels :
    (∀ (tps : List Tradeport) (c : Commodity) (ship : Option Ship)
        (a : Option ℤ) (m : ℤ),
      (sellOptionsSelected tps c ship a m).length ≤ (maxLocsNorm m).toNat ∧
      (buyOptionsSelected tps c ship a m).length ≤ (maxLocsNorm m).toNat ∧
      (∀ tp ∈ tps, ∀ p,
        getDataLocationSellprice tp c ship ((amountNorm a : ℤ) : ℚ) = some p →
        p ∈ (sellOptionsSelected tps c ship a m).map Prod.fst →
        tp ∈ sellLocationsListed tps c ship a m) ∧
      (∀ tp ∈ tps, ∀ p,
        getDataLocationBuyprice tp c ship ((amountNorm a : ℤ) : ℚ) = some p →
        p ∈ (buyOptionsSelected tps c ship a m).map Prod.fst →
        tp ∈ buyLocationsListed tps c ship a m)) ∧
    maxLocsNorm 1 = 1 ∧
    (sellLocationsListed c10Tps c10Gold none none 1).length = 2 := by
  refine ⟨?_, by decide, by decide⟩
  intro tps c ship a m
  refine ⟨List.length_take_le _ _, List.length_take_le _ _, ?_, ?_⟩
  · intro tp htp p hp hsel
    exact groupSelect_complete (fun tp => getDataLocationSellprice tp c ship
      ((amountNorm a : ℤ) : ℚ)) _ tps (maxLocsNorm m).toNat tp p htp hp hsel
  · intro tp htp p hp hsel
    exact groupSelect_complete (fun tp => getDataLocationBuyprice tp c ship
      ((amountNorm a : ℤ) : ℚ)) _ tps (maxLocsNorm m).toNat tp p htp hp hsel

/-- C10 witness: the completeness clause applied on the concrete
two-tradeports-one-price catalog. -/
theorem c10_limit_bounds_price_levels_witness :
    (sellOptionsSelected c10Tps c10Gold none none 1).length ≤ (maxLocsNorm 1).toNat ∧
    maxLocsNorm 1 = 1 ∧
    (sellLocationsListed c10Tps c10Gold none none 1).length = 2 :=
  ⟨(c10_limit_bounds_price_levels.1 c10Tps c10Gold none none 1).1,
   c10_limit_bounds_price_levels.2.1, c10_limit_bounds_price_levels.2.2⟩

/-! ### C1/C6: invariants of the `best_route` accumulator -/

/-- Invariant of the `best_route` accumulator: either still the initial
value, or its fields satisfy the claimed arithmetic relations for the
unit prices `pb`/`ps` of its winning pair, and its accumulated start/end
codes come from the searched tradeport sets. -/
def RouteInv (money : Option ℤ) (cargoSpace : ℚ) (startCodes endCodes : List String)
    (best : BestRoute) : Prop :=
  best = initBestRoute ∨
  ∃ pb ps : ℚ,
    pb < ps ∧
    best.cargo = (match money with
      | none => cargoSpace
      | some m => min ((⌊(m : ℚ) / pb⌋ : ℤ) : ℚ) cargoSpace) ∧
    1 ≤ best.cargo ∧
    best.profit = pyRound (best.cargo * (ps - pb)) ∧
    best.buy = pb * best.cargo ∧
    best.sell = ps * best.cargo ∧
    best.start ≠ [] ∧
    (∀ cd ∈ best.start, cd ∈ startCodes) ∧
    (∀ cd ∈ best.end_, cd ∈ endCodes)

theorem routeInner_inv (money : Option ℤ) (cargoSpace : ℚ)
    (startCodes endCodes : List String) (startCode endCode attr : String)
    (price : PriceListing) (cs : List (String × PriceListing))
    (hstart : startCode ∈ startCodes) (hend : endCode ∈ endCodes) :
    ∀ best best2 : BestRoute,
      RouteInv money cargoSpace startCodes endCodes best →
      routeInner money cargoSpace startCode endCode attr price cs best =
        Except.ok best2 →
      RouteInv money cargoSpace startCodes endCodes best2 := by
  induction cs with
  | nil =>
      intro best best2 hinv hok
      simp only [routeInner] at hok
      cases hok
      exact hinv
  | cons hd rest ih =>
      obtain ⟨cAttr, c⟩ := hd
      intro best best2 hinv hok
      simp only [routeInner] at hok
      by_cases hcond : cAttr = attr ∧ price.operation = "sell" ∧
          c.price_buy < price.price_sell
      · rw [if_pos hcond] at hok
        rcases hmoney : money with _ | m
        · subst hmoney
          simp only at hok
          by_cases h1 : (1 : ℚ) ≤ cargoSpace
          · rw [if_pos h1] at hok
            by_cases hgt : best.profit <
                pyRound (cargoSpace * (price.price_sell - c.price_buy))
            · rw [if_pos hgt] at hok
              refine ih _ best2 ?_ hok
              refine Or.inr ⟨c.price_buy, price.price_sell, hcond.2.2, ?_⟩
              refine ⟨rfl, h1, rfl, rfl, rfl, by simp, ?_, ?_⟩
              · intro cd hcd
                simp only [List.mem_singleton] at hcd
                subst hcd
                exact hstart
              · intro cd hcd
                simp only [List.mem_singleton] at hcd
                subst hcd
                exact hend
            · rw [if_neg hgt] at hok
              by_cases heq : pyRound (cargoSpace * (price.price_sell - c.price_buy)) =
                  best.profit
              · rw [if_pos heq] at hok
                rcases hbc : best.commodity with _ | bc
                · simp only [hbc] at hok
                  cases hok
                · simp only [hbc] at hok
                  by_cases hsame : bc.1 = attr
                  · rw [if_pos hsame] at hok
                    refine ih _ best2 ?_ hok
                    rcases hinv with hinit | ⟨pb, ps, h3, h4, h5, h6, h7, h8, h9, h10, h11⟩
                    · rw [hinit] at hbc
                      cases hbc
                    · refine Or.inr ⟨pb, ps, h3, h4, h5, h6, h7, h8, ?_, ?_, ?_⟩
                      · by_cases hmem : startCode ∈ best.start <;> simp [hmem, h9]
                      · intro cd hcd
                        by_cases hmem : startCode ∈ best.start
                        · simp only [if_pos hmem] at hcd
                          exact h10 cd hcd
                        · simp only [if_neg hmem, List.mem_append,
                            List.mem_singleton] at hcd
                          rcases hcd with hcd | hcd
                          · exact h10 cd hcd
                          · subst hcd
                            exact hstart
                      · intro cd hcd
                        by_cases hmem : endCode ∈ best.end_
                        · simp only [if_pos hmem] at hcd
                          exact h11 cd hcd
                        · simp only [if_neg hmem, List.mem_append,
                            List.mem_singleton] at hcd
                          rcases hcd with hcd | hcd
                          · exact h11 cd hcd
                          · subst hcd
                            exact hend
                  · rw [if_neg hsame] at hok
                    exact ih _ best2 hinv hok
              · rw [if_neg heq] at hok
                exact ih _ best2 hinv hok
          · rw [if_neg h1] at hok
            exact ih _ best2 hinv hok
        · subst hmoney
          simp only at hok
          by_cases hzero : c.price_buy = 0
          · rw [if_pos hzero] at hok
            simp only at hok
            cases hok
          · rw [if_neg hzero] at hok
            simp only at hok
            by_cases h1 : (1 : ℚ) ≤ min ((⌊(m : ℚ) / c.price_buy⌋ : ℤ) : ℚ) cargoSpace
            · rw [if_pos h1] at hok
              by_cases hgt : best.profit <
                  pyRound (min ((⌊(m : ℚ) / c.price_buy⌋ : ℤ) : ℚ) cargoSpace *
                    (price.price_sell - c.price_buy))
              · rw [if_pos hgt] at hok
                refine ih _ best2 ?_ hok
                refine Or.inr ⟨c.price_buy, price.price_sell, hcond.2.2, ?_⟩
                refine ⟨rfl, h1, rfl, rfl, rfl, by simp, ?_, ?_⟩
                · intro cd hcd
                  simp only [List.mem_singleton] at hcd
                  subst hcd
                  exact hstart
                · intro cd hcd
                  simp only [List.mem_singleton] at hcd
                  subst hcd
                  exact hend
              · rw [if_neg hgt] at hok
                by_cases heq : pyRound (min ((⌊(m : ℚ) / c.price_buy⌋ : ℤ) : ℚ)
                    cargoSpace * (price.price_sell - c.price_buy)) = best.profit
                · rw [if_pos heq] at hok
                  rcases hbc : best.commodity with _ | bc
                  · simp only [hbc] at hok
                    cases hok
                  · simp only [hbc] at hok
                    by_cases hsame : bc.1 = attr
                    · rw [if_pos hsame] at hok
                      refine ih _ best2 ?_ hok
                      rcases hinv with hinit | ⟨pb, ps, h3, h4, h5, h6, h7, h8, h9, h10, h11⟩
                      · rw [hinit] at hbc
                        cases hbc
                      · refine Or.inr ⟨pb, ps, h3, h4, h5, h6, h7, h8, ?_, ?_, ?_⟩
                        · by_cases hmem : startCode ∈ best.start <;> simp [hmem, h9]
                        · intro cd hcd
                          by_cases hmem : startCode ∈ best.start
                          · simp only [if_pos hmem] at hcd
                            exact h10 cd hcd
                          · simp only [if_neg hmem, List.mem_append,
                              List.mem_singleton] at hcd
                            rcases hcd with hcd | hcd
                            · exact h10 cd hcd
                            · subst hcd
                              exact hstart
                        · intro cd hcd
                          by_cases hmem : endCode ∈ best.end_
                          · simp only [if_pos hmem] at hcd
                            exact h11 cd hcd
                          · simp only [if_neg hmem, List.mem_append,
                              List.mem_singleton] at hcd
                            rcases hcd with hcd | hcd
                            · exact h11 cd hcd
                            · subst hcd
                              exact hend
                    · rw [if_neg hsame] at hok
                      exact ih _ best2 hinv hok
                · rw [if_neg heq] at hok
                  exact ih _ best2 hinv hok
            · rw [if_neg h1] at hok
              exact ih _ best2 hinv hok
      · rw [if_neg hcond] at hok
        exact ih _ best2 hinv hok

theorem routeEndPrices_inv (money : Option ℤ) (cargoSpace : ℚ)
    (startCodes endCodes : List String) (startCode : String)
    (commodities : List (String × PriceListing)) (endCode : String)
    (hstart : startCode ∈ startCodes) (hend : endCode ∈ endCodes) :
    ∀ (ps : List (String × PriceListing)) (st : SearchSt) (r : SearchSt),
      RouteInv money cargoSpace startCodes endCodes st.best →
      routeEndPrices money cargoSpace startCode commodities endCode ps st =
        Except.ok r →
      RouteInv money cargoSpace startCodes endCodes r.best := by
  intro ps
  induction ps with
  | nil =>
      intro st r hinv hok
      cases hok
      exact hinv
  | cons hd tl ih =>
      obtain ⟨attr, price⟩ := hd
      intro st r hinv hok
      simp only [routeEndPrices] at hok
      rcases hinner : routeInner money cargoSpace startCode endCode attr
          { price with short_name := some attr } commodities st.best with e | best2
      · rw [hinner] at hok
        cases hok
      · rw [hinner] at hok
        exact ih ⟨markTpPrice st.tps endCode attr, best2⟩ r
          (routeInner_inv money cargoSpace startCodes endCodes startCode endCode attr
            { price with short_name := some attr } commodities hstart hend st.best
            best2 hinv hinner) hok

theorem routeEnds_inv (money : Option ℤ) (cargoSpace : ℚ)
    (startCodes endCodes : List String) (startCode : String)
    (commodities : List (String × PriceListing))
    (hstart : startCode ∈ startCodes) :
    ∀ (es : List String), (∀ e ∈ es, e ∈ endCodes) →
    ∀ (st r : SearchSt),
      RouteInv money cargoSpace startCodes endCodes st.best →
      routeEnds money cargoSpace startCode commodities es st = Except.ok r →
      RouteInv money cargoSpace startCodes endCodes r.best := by
  intro es
  induction es with
  | nil =>
      intro _ st r hinv hok
      cases hok
      exact hinv
  | cons hd tl ih =>
      intro hes st r hinv hok
      simp only [routeEnds] at hok
      rcases hstep : routeEndPrices money cargoSpace startCode commodities hd
          (pricesOfCode st.tps hd) st with err | st2
      · rw [hstep] at hok
        cases hok
      · rw [hstep] at hok
        exact ih (fun e he => hes e (List.mem_cons_of_mem _ he)) st2 r
          (routeEndPrices_inv money cargoSpace startCodes endCodes startCode
            commodities hd hstart (hes hd (List.mem_cons_self _ _))
            (pricesOfCode st.tps hd) st st2 hinv hstep) hok

theorem routeStarts_inv (money : Option ℤ) (cargoSpace : ℚ)
    (startCodes endCodes : List String) (filter : Option Commodity) (ill : Bool) :
    ∀ (ss : List String), (∀ s ∈ ss, s ∈ startCodes) →
    ∀ (st r : SearchSt),
      RouteInv money cargoSpace startCodes endCodes st.best →
      routeStarts money cargoSpace filter ill endCodes ss st = Except.ok r →
      RouteInv money cargoSpace startCodes endCodes r.best := by
  intro ss
  induction ss with
  | nil =>
      intro _ st r hinv hok
      cases hok
      exact hinv
  | cons hd tl ih =>
      intro hss st r hinv hok
      simp only [routeStarts] at hok
      rcases hstep : routeEnds money cargoSpace hd
          (buyCommodities (pricesOfCode (markStartTp st.tps hd filter ill) hd) filter ill)
          endCodes ⟨markStartTp st.tps hd filter ill, st.best⟩ with err | st2
      · rw [hstep] at hok
        cases hok
      · rw [hstep] at hok
        exact ih (fun s hs => hss s (List.mem_cons_of_mem _ hs)) st2 r
          (routeEnds_inv money cargoSpace startCodes endCodes hd _
            (hss hd (List.mem_cons_self _ _)) endCodes (fun e he => he)
            ⟨markStartTp st.tps hd filter ill, st.best⟩ st2 hinv hstep) hok

theorem pyRound_nonneg (q : ℚ) (h : 0 ≤ q) : 0 ≤ pyRound q := by
  have h0 : (0 : ℤ) ≤ ⌊q⌋ := Int.le_floor.mpr (by exact_mod_cast h)
  show 0 ≤ (if q - (⌊q⌋ : ℚ) < 1/2 then ⌊q⌋
    else if 1/2 < q - (⌊q⌋ : ℚ) then ⌊q⌋ + 1
    else if ⌊q⌋ % 2 = 0 then ⌊q⌋ else ⌊q⌋ + 1)
  split
  · exact h0
  · split
    · omega
    · split <;> omega

theorem moneyNormOf_pos (money0 : Option ℤ) (m : ℤ)
    (h : moneyNormOf money0 = some m) : 1 ≤ m := by
  rcases money0 with _ | m0
  · simp [moneyNormOf] at h
  · simp only [moneyNormOf] at h
    by_cases hlt : m0 < 1
    · rw [if_pos hlt] at h
      cases h
    · rw [if_neg hlt] at h
      cases h
      omega

theorem budget_mul_le (m : ℤ) (pb cargoSpace c : ℚ) (hm : 1 ≤ m)
    (hc : c = min ((⌊(m : ℚ) / pb⌋ : ℤ) : ℚ) cargoSpace) (h1 : 1 ≤ c) :
    c * pb ≤ (m : ℚ) := by
  have hcle : c ≤ ((⌊(m : ℚ) / pb⌋ : ℤ) : ℚ) := by
    rw [hc]
    exact min_le_left _ _
  have hfl1 : (1 : ℚ) ≤ ((⌊(m : ℚ) / pb⌋ : ℤ) : ℚ) := le_trans h1 hcle
  have hfl1i : (1 : ℤ) ≤ ⌊(m : ℚ) / pb⌋ := by exact_mod_cast hfl1
  have hdiv1 : (1 : ℚ) ≤ (m : ℚ) / pb := le_trans hfl1 (Int.floor_le _)
  have hpb : 0 < pb := by
    rcases lt_trichotomy pb 0 with hlt | heq | hgt
    · exfalso
      have hmpos : (0 : ℚ) < (m : ℚ) := by exact_mod_cast lt_of_lt_of_le one_pos hm
      have : (m : ℚ) / pb < 0 := div_neg_of_pos_of_neg hmpos hlt
      linarith
    · exfalso
      rw [heq] at hdiv1
      simp at hdiv1
      linarith
    · exact hgt
  have hcdiv : c ≤ (m : ℚ) / pb := le_trans hcle (Int.floor_le _)
  calc c * pb ≤ ((m : ℚ) / pb) * pb := mul_le_mul_of_nonneg_right hcdiv (le_of_lt hpb)
    _ = (m : ℚ) := div_mul_cancel₀ _ (ne_of_gt hpb)

theorem getTradeportsByPositionname_subset (cat : Catalog) (name : Option String)
    (direct : Bool) :
    ∀ tp ∈ getTradeportsByPositionname cat name direct, tp ∈ cat.tradeports := by
  intro tp htp
  unfold getTradeportsByPositionname at htp
  by_cases hname : pyTruthyStr name = false
  · rw [if_pos hname] at htp
    cases htp
  · rw [if_neg hname] at htp
    rcases hsys : findEntityByName cat.systems name with _ | sys
    · rcases hpl : findEntityByName cat.planets name with _ | pl
      · rcases hsat : findEntityByName cat.satellites name with _ | sat
        · rcases hci : findEntityByName cat.cities name with _ | ci
          · rcases hfind : getTradeportByName cat name with _ | tp0
            · simp only [hsys, hpl, hsat, hci, hfind] at htp
              cases htp
            · simp only [hsys, hpl, hsat, hci, hfind, List.mem_singleton] at htp
              subst htp
              rcases name with _ | s
              · simp [getTradeportByName] at hfind
              · simp only [getTradeportByName] at hfind
                by_cases hsem : s.isEmpty
                · rw [if_pos hsem] at hfind
                  cases hfind
                · rw [if_neg hsem] at hfind
                  exact List.mem_of_find?_eq_some hfind
          · simp only [hsys, hpl, hsat, hci] at htp
            exact List.mem_of_mem_filter htp
        · simp only [hsys, hpl, hsat] at htp
          exact List.mem_of_mem_filter htp
      · simp only [hsys, hpl] at htp
        exact List.mem_of_mem_filter htp
    · simp only [hsys] at htp
      exact List.mem_of_mem_filter htp

theorem startTradeportsOf_mem (cat : Catalog) (ship : Ship) (psn : Option String) :
    ∀ tp ∈ startTradeportsOf cat ship psn,
      tp ∈ cat.tradeports ∧ (ship.hull_trading = true → tp.hull_trading = true) := by
  intro tp htp
  unfold startTradeportsOf at htp
  by_cases hhull : ship.hull_trading
  · rw [if_pos hhull] at htp
    exact ⟨getTradeportsByPositionname_subset cat psn false tp
        (List.mem_of_mem_filter htp),
      fun _ => by simpa using (List.mem_filter.mp htp).2⟩
  · rw [if_neg hhull] at htp
    exact ⟨getTradeportsByPositionname_subset cat psn false tp htp,
      fun hh => absurd hh hhull⟩

theorem endTradeportsOf_mem (cat : Catalog) (ship : Ship)
    (startTps : List Tradeport) (pen : Option String) :
    ∀ tp ∈ endTradeportsOf ship (endTradeports1Of cat startTps pen),
      tp ∈ cat.tradeports ∧ (ship.hull_trading = true → tp.hull_trading = true) := by
  intro tp htp
  have hsub1 : ∀ tp2 ∈ endTradeports1Of cat startTps pen, tp2 ∈ cat.tradeports := by
    intro tp2 htp2
    unfold endTradeports1Of at htp2
    by_cases hlen : (getTradeportsByPositionname cat pen false).length < 1
    · rw [if_pos hlen] at htp2
      exact List.mem_of_mem_filter htp2
    · rw [if_neg hlen] at htp2
      exact getTradeportsByPositionname_subset cat pen false tp2 htp2
  unfold endTradeportsOf at htp
  by_cases hhull : ship.hull_trading
  · rw [if_pos hhull] at htp
    exact ⟨hsub1 tp (List.mem_of_mem_filter htp),
      fun _ => by simpa using (List.mem_filter.mp htp).2⟩
  · rw [if_neg hhull] at htp
    exact ⟨hsub1 tp htp, fun hh => absurd hh hhull⟩

/-- Dissection of a successful route search: a `route` outcome comes
from an `Except.ok` run of the search loop started on the hull-filtered
start/end code sets, with a non-empty accumulated start list. -/
theorem getBestTradingRoute_route_elim (cat : Catalog) (sn : String)
    (money0 : Option ℤ) (psn : Option String) (fcs0 : Option ℚ)
    (pen : Option String) (cn : Option String) (ill : Bool) (r : BestRoute)
    (h : (getBestTradingRoute cat (some sn) money0 psn fcs0 pen cn ill).outcome =
      RouteOutcome.route r) :
    ∃ (ship : Ship) (st : SearchSt),
      getShipByName cat (some sn) = some ship ∧
      routeStarts (moneyNormOf money0) (effectiveCargoSpace ship.scu (fcsNormOf fcs0))
        (getCommodityByName cat cn) ill
        ((endTradeportsOf ship
          (endTradeports1Of cat (startTradeportsOf cat ship psn) pen)).map
            (fun tp => tp.code))
        ((startTradeportsOf cat ship psn).map (fun tp => tp.code))
        ⟨cat.tradeports, initBestRoute⟩ = Except.ok st ∧
      r = st.best ∧ ¬(st.best.start = []) := by
  unfold getBestTradingRoute at h
  rcases hship : getShipByName cat (some sn) with _ | ship
  · simp [hship] at h
  · simp only [hship] at h
    split at h
    · split at h <;> simp at h
    · split at h
      · simp at h
      · split at h
        · simp at h
        · split at h
          · simp at h
          · rcases hrs : routeStarts (moneyNormOf money0)
                (effectiveCargoSpace ship.scu (fcsNormOf fcs0))
                (getCommodityByName cat cn) ill
                ((endTradeportsOf ship
                  (endTradeports1Of cat (startTradeportsOf cat ship psn) pen)).map
                    (fun tp => tp.code))
                ((startTradeportsOf cat ship psn).map (fun tp => tp.code))
                ⟨cat.tradeports, initBestRoute⟩ with err | st
            · simp only [hrs] at h
              simp at h
            · simp only [hrs] at h
              by_cases hlen : st.best.start.length = 0
              · rw [if_pos hlen] at h
                simp at h
              · rw [if_neg hlen] at h
                simp only at h
                refine ⟨ship, st, rfl, hrs, ?_, ?_⟩
                · cases h
                  rfl
                · intro hemp
                  exact hlen (by rw [hemp]; rfl)

/-- C1: every returned route satisfies the claimed arithmetic — for the
winning pair's unit buy price `pb` and unit sell price `ps`: the
quantity is `min(effective cargo, floor(budget / pb))` with a budget
(else the effective cargo), it is at least 1 and at most the effective
cargo, the profit is `round(quantity * (ps - pb))` and non-negative,
the reported buy/sell totals are the unit prices times the quantity,
and with a budget `quantity * pb ≤ budget`. -/
theorem c1_route_values (cat : Catalog) (sn : String) (money0 : Option ℤ)
    (psn : Option String) (fcs0 : Option ℚ) (pen : Option String)
    (cn : Option String) (ill : Bool) (r : BestRoute)
    (h : (getBestTradingRoute cat (some sn) money0 psn fcs0 pen cn ill).outcome =
      RouteOutcome.route r) :
    ∃ (ship : Ship) (pb ps : ℚ),
      getShipByName cat (some sn) = some ship ∧
      pb < ps ∧
      r.cargo = (match moneyNormOf money0 with
        | none => effectiveCargoSpace ship.scu (fcsNormOf fcs0)
        | some m => min ((⌊(m : ℚ) / pb⌋ : ℤ) : ℚ)
            (effectiveCargoSpace ship.scu (fcsNormOf fcs0))) ∧
      1 ≤ r.cargo ∧
      r.cargo ≤ effectiveCargoSpace ship.scu (fcsNormOf fcs0) ∧
      r.profit = pyRound (r.cargo * (ps - pb)) ∧
      0 ≤ r.profit ∧
      r.buy = pb * r.cargo ∧
      r.sell = ps * r.cargo ∧
      (∀ m : ℤ, moneyNormOf money0 = some m → r.cargo * pb ≤ (m : ℚ)) := by
  obtain ⟨ship, st, hship, hrs, hre, hnempty⟩ :=
    getBestTradingRoute_route_elim cat sn money0 psn fcs0 pen cn ill r h
  have hinv := routeStarts_inv (moneyNormOf money0)
    (effectiveCargoSpace ship.scu (fcsNormOf fcs0))
    ((startTradeportsOf cat ship psn).map (fun tp => tp.code))
    ((endTradeportsOf ship
      (endTradeports1Of cat (startTradeportsOf cat ship psn) pen)).map
        (fun tp => tp.code))
    (getCommodityByName cat cn) ill
    ((startTradeportsOf cat ship psn).map (fun tp => tp.code))
    (fun s hs => hs) ⟨cat.tradeports, initBestRoute⟩ st (Or.inl rfl) hrs
  rcases hinv with hinit | ⟨pb, ps, h3, h4, h5, h6, h7, h8, h9, _, _⟩
  · exact absurd (by rw [hinit]; rfl) hnempty
  · subst hre
    refine ⟨ship, pb, ps, hship, h3, h4, h5, ?_, h6, ?_, h7, h8, ?_⟩
    · rw [h4]
      rcases moneyNormOf money0 with _ | m
      · simp
      · exact min_le_right _ _
    · rw [h6]
      apply pyRound_nonneg
      apply mul_nonneg (le_trans zero_le_one h5)
      linarith
    · intro m hm
      rw [hm] at h4
      exact budget_mul_le m pb (effectiveCargoSpace ship.scu (fcsNormOf fcs0))
        st.best.cargo (moneyNormOf_pos money0 m hm) h4 h5

/-- C1 witness: the arithmetic at a concrete budget-bound route
(budget 55, buy price 10, capacity 100: quantity 5, profit 75). -/
theorem c1_route_values_witness :
    ∃ (ship : Ship) (pb ps : ℚ),
      getShipByName catTwoPorts (some "Freighter") = some ship ∧
      pb < ps ∧
      (⟨["TP1"], ["TP2"],
        some ("LARANITE", ⟨"sell", 8, 25, "Metal", some "LARANITE"⟩),
        75, 5, 50, 125⟩ : BestRoute).cargo =
        (match moneyNormOf (some 55) with
          | none => effectiveCargoSpace ship.scu (fcsNormOf none)
          | some m => min ((⌊(m : ℚ) / pb⌋ : ℤ) : ℚ)
              (effectiveCargoSpace ship.scu (fcsNormOf none))) ∧
      1 ≤ (⟨["TP1"], ["TP2"],
        some ("LARANITE", ⟨"sell", 8, 25, "Metal", some "LARANITE"⟩),
        75, 5, 50, 125⟩ : BestRoute).cargo ∧
      (⟨["TP1"], ["TP2"],
        some ("LARANITE", ⟨"sell", 8, 25, "Metal", some "LARANITE"⟩),
        75, 5, 50, 125⟩ : BestRoute).cargo ≤
        effectiveCargoSpace ship.scu (fcsNormOf none) ∧
      (⟨["TP1"], ["TP2"],
        some ("LARANITE", ⟨"sell", 8, 25, "Metal", some "LARANITE"⟩),
        75, 5, 50, 125⟩ : BestRoute).profit =
        pyRound ((⟨["TP1"], ["TP2"],
          some ("LARANITE", ⟨"sell", 8, 25, "Metal", some "LARANITE"⟩),
          75, 5, 50, 125⟩ : BestRoute).cargo * (ps - pb)) ∧
      0 ≤ (⟨["TP1"], ["TP2"],
        some ("LARANITE", ⟨"sell", 8, 25, "Metal", some "LARANITE"⟩),
        75, 5, 50, 125⟩ : BestRoute).profit ∧
      (⟨["TP1"], ["TP2"],
        some ("LARANITE", ⟨"sell", 8, 25, "Metal", some "LARANITE"⟩),
        75, 5, 50, 125⟩ : BestRoute).buy =
        pb * (⟨["TP1"], ["TP2"],
          some ("LARANITE", ⟨"sell", 8, 25, "Metal", some "LARANITE"⟩),
          75, 5, 50, 125⟩ : BestRoute).cargo ∧
      (⟨["TP1"], ["TP2"],
        some ("LARANITE", ⟨"sell", 8, 25, "Metal", some "LARANITE"⟩),
        75, 5, 50, 125⟩ : BestRoute).sell =
        ps * (⟨["TP1"], ["TP2"],
          some ("LARANITE", ⟨"sell", 8, 25, "Metal", some "LARANITE"⟩),
          75, 5, 50, 125⟩ : BestRoute).cargo ∧
      (∀ m : ℤ, moneyNormOf (some 55) = some m →
        (⟨["TP1"], ["TP2"],
          some ("LARANITE", ⟨"sell", 8, 25, "Metal", some "LARANITE"⟩),
          75, 5, 50, 125⟩ : BestRoute).cargo * pb ≤ (m : ℚ)) :=
  c1_route_values catTwoPorts "Freighter" (some 55) (some "Port Alpha") none
    (some "Port Beta") none true
    ⟨["TP1"], ["TP2"],
      some ("LARANITE", ⟨"sell", 8, 25, "Metal", some "LARANITE"⟩), 75, 5, 50, 125⟩
    (by decide)

/-- Hull-trading catalog: a Hull C ship, two hull-capable tradeports and
one non-hull tradeport offering a better sell price. -/
def catHull : Catalog :=
  ⟨[⟨"HULLC", "Hull C", 1000, true⟩], [⟨"LARANITE", "Laranite"⟩],
   [⟨"ST", "Stanton"⟩], [], [], [],
   [⟨"TPH1", "Baijini Point", "ST", "", "", "", true,
      [("LARANITE", ⟨"buy", 10, 12, "Metal", none⟩)]⟩,
    ⟨"TPH2", "Everus Harbor", "ST", "", "", "", true,
      [("LARANITE", ⟨"sell", 8, 25, "Metal", none⟩)]⟩,
    ⟨"TPH3", "Grim HEX", "ST", "", "", "", false,
      [("LARANITE", ⟨"sell", 8, 30, "Metal", none⟩)]⟩]⟩

/-- C6: with a hull-trading ship, every tradeport referenced by a
returned route is a hull-trading tradeport of the catalog, and the
per-tradeport sell/buy price lookups reject non-hull-trading tradeports
outright. -/
theorem c6_hull_trading_routes (cat : Catalog) (sn : String) (money0 : Option ℤ)
    (psn : Option String) (fcs0 : Option ℚ) (pen : Option String)
    (cn : Option String) (ill : Bool) (ship : Ship) (r : BestRoute)
    (hship : getShipByName cat (some sn) = some ship)
    (hhull : ship.hull_trading = true)
    (h : (getBestTradingRoute cat (some sn) money0 psn fcs0 pen cn ill).outcome =
      RouteOutcome.route r) :
    (∀ cd ∈ r.start, ∃ tp ∈ cat.tradeports, tp.code = cd ∧ tp.hull_trading = true) ∧
    (∀ cd ∈ r.end_, ∃ tp ∈ cat.tradeports, tp.code = cd ∧ tp.hull_trading = true) ∧
    (∀ (tp : Tradeport) (c : Commodity) (sh : Ship) (amount : ℚ),
      sh.hull_trading = true → tp.hull_trading = false →
      getDataLocationSellprice tp c (some sh) amount = none ∧
      getDataLocationBuyprice tp c (some sh) amount = none) := by
  obtain ⟨ship2, st, hship2, hrs, hre, hnempty⟩ :=
    getBestTradingRoute_route_elim cat sn money0 psn fcs0 pen cn ill r h
  have hsame : ship = ship2 := by
    rw [hship] at hship2
    exact Option.some.inj hship2
  subst hsame
  have hinv := routeStarts_inv (moneyNormOf money0)
    (effectiveCargoSpace ship.scu (fcsNormOf fcs0))
    ((startTradeportsOf cat ship psn).map (fun tp => tp.code))
    ((endTradeportsOf ship
      (endTradeports1Of cat (startTradeportsOf cat ship psn) pen)).map
        (fun tp => tp.code))
    (getCommodityByName cat cn) ill
    ((startTradeportsOf cat ship psn).map (fun tp => tp.code))
    (fun s hs => hs) ⟨cat.tradeports, initBestRoute⟩ st (Or.inl rfl) hrs
  rcases hinv with hinit | ⟨pb, ps, _, _, _, _, _, _, _, h10, h11⟩
  · exact absurd (by rw [hinit]; rfl) hnempty
  · subst hre
    refine ⟨?_, ?_, ?_⟩
    · intro cd hcd
      obtain ⟨tp, htp, hcode⟩ := List.mem_map.mp (h10 cd hcd)
      obtain ⟨hmem, hh⟩ := startTradeportsOf_mem cat ship psn tp htp
      exact ⟨tp, hmem, hcode, hh hhull⟩
    · intro cd hcd
      obtain ⟨tp, htp, hcode⟩ := List.mem_map.mp (h11 cd hcd)
      obtain ⟨hmem, hh⟩ := endTradeportsOf_mem cat ship
        (startTradeportsOf cat ship psn) pen tp htp
      exact ⟨tp, hmem, hcode, hh hhull⟩
    · intro tp c sh amount hsh htp
      constructor
      · simp only [getDataLocationSellprice]
        rw [if_pos ⟨hsh, htp⟩]
      · simp only [getDataLocationBuyprice]
        rw [if_pos ⟨hsh, htp⟩]

/-- C6 witness: on `catHull` the Hull C route references only the two
hull-capable tradeports (the non-hull tradeport with the better price is
excluded), and the price lookups reject the non-hull tradeport. -/
theorem c6_hull_trading_routes_witness :
    (∀ cd ∈ (⟨["TPH1"], ["TPH2"],
        some ("LARANITE", ⟨"sell", 8, 25, "Metal", some "LARANITE"⟩),
        15000, 1000, 10000, 25000⟩ : BestRoute).start,
      ∃ tp ∈ catHull.tradeports, tp.code = cd ∧ tp.hull_trading = true) ∧
    (∀ cd ∈ (⟨["TPH1"], ["TPH2"],
        some ("LARANITE", ⟨"sell", 8, 25, "Metal", some "LARANITE"⟩),
        15000, 1000, 10000, 25000⟩ : BestRoute).end_,
      ∃ tp ∈ catHull.tradeports, tp.code = cd ∧ tp.hull_trading = true) ∧
    (∀ (tp : Tradeport) (c : Commodity) (sh : Ship) (amount : ℚ),
      sh.hull_trading = true → tp.hull_trading = false →
      getDataLocationSellprice tp c (some sh) amount = none ∧
      getDataLocationBuyprice tp c (some sh) amount = none) :=
  c6_hull_trading_routes catHull "Hull C" none (some "Stanton") none none none true
    ⟨"HULLC", "Hull C", 1000, true⟩
    ⟨["TPH1"], ["TPH2"],
      some ("LARANITE", ⟨"sell", 8, 25, "Metal", some "LARANITE"⟩),
      15000, 1000, 10000, 25000⟩
    (by decide) (by decide) (by decide)
